import Mathlib

set_option maxRecDepth 4000

/-!
Verification development for the txmodems crate: a shallow embedding of the
XMODEM and YMODEM transfer engines (src/xmodem.rs, src/variants/api/xmodem.rs,
src/variants/api/ymodem.rs, src/common.rs) together with proofs about the
claims of the specification.

Modelling conventions:
- Bytes are Nat values; u8 wrapping arithmetic is made explicit with mod 256,
  u16 with mod 65536, u32 with mod 2 to the 32.
- The duplex device is modelled by a script of read events (a byte, or a
  timeout) consumed in order, plus an accumulating list of written bytes.
  Reading from an exhausted script models a non-timeout channel error and
  yields the ioFailure outcome, matching the source where get_byte propagates
  any error and get_byte_timeout turns only TimedOut into a missing byte.
- Writes to the device and to the output stream always succeed in the model.
- A Rust unwrap failure is modelled by the panic outcome.
- Loops are total functions: loops that consume at least one read event per
  iteration recurse on the event list; the others carry an explicit gas
  argument supplied by a wrapper, or a fuel argument exposed to the caller
  where the source loop need not terminate.
-/

namespace Txmodems

/-- Protocol control bytes, from the consts module of lib.rs. -/
def SOH : Nat := 0x01

def STX : Nat := 0x02

def EOT : Nat := 0x04

def ACK : Nat := 0x06

def NAK : Nat := 0x15

def CAN : Nat := 0x18

def CRC : Nat := 0x43

/-- One scripted interaction on the device read side: either a byte arrives
or the read times out. -/
inductive Ev where
  | byte : Nat → Ev
  | timeout : Ev
deriving DecidableEq

/-- Checksum mode, source enum Checksum (xmodem.rs) and ChecksumKind
(common.rs). -/
inductive Checksum where
  | Standard : Checksum
  | Crc16 : Checksum
deriving DecidableEq

/-- Block length, source enum BlockLength (xmodem.rs) and BlockLengthKind
(common.rs). -/
inductive BlockLength where
  | Standard : BlockLength
  | OneK : BlockLength
deriving DecidableEq

/-- The numeric value of the block length discriminant. -/
def BlockLength.size : BlockLength → Nat
  | .Standard => 128
  | .OneK => 1024

/-- Error taxonomy, source enum Error (xmodem.rs) and ModemError (common.rs).
The Io variant is called ioFailure here. ExhaustedRetries carries the u32
error count stored in the source value. -/
inductive ModemError where
  | ioFailure : ModemError
  | ExhaustedRetries : Nat → ModemError
  | Canceled : ModemError
deriving DecidableEq

/-- Outcome of running an embedded operation: a normal return value, a
ModemError, a Rust panic (a failed unwrap), or exhaustion of the fuel given
to a loop that the source does not bound. -/
inductive Outcome (α : Type) where
  | ok : α → Outcome α
  | err : ModemError → Outcome α
  | panic : Outcome α
  | stuck : Outcome α
deriving DecidableEq

/-- Observable trace of one embedded operation: the bytes written to the
device, the bytes written to the output stream, the unconsumed read script,
the final value of the running error counter, and the outcome. -/
structure Trace (α : Type) where
  wire : List Nat
  out : List Nat
  input : List Ev
  errors : Nat
  result : Outcome α
deriving DecidableEq

/-- Prefix a trace with earlier device and output writes. -/
def seqTrace {α : Type} (w o : List Nat) (t : Trace α) : Trace α :=
  ⟨w ++ t.wire, o ++ t.out, t.input, t.errors, t.result⟩

/-- Sequence two operations: on a normal return of the first, run the second
from the reached error counter and remaining script; otherwise stop with the
first trace. -/
def Trace.andThen {α β : Type} (t : Trace α) (f : α → Nat → List Ev → Trace β) :
    Trace β :=
  match t.result with
  | .ok a =>
    let t2 := f a t.errors t.input
    ⟨t.wire ++ t2.wire, t.out ++ t2.out, t2.input, t2.errors, t2.result⟩
  | .err m => ⟨t.wire, t.out, t.input, t.errors, .err m⟩
  | .panic => ⟨t.wire, t.out, t.input, t.errors, .panic⟩
  | .stuck => ⟨t.wire, t.out, t.input, t.errors, .stuck⟩

/-- Source fn calc_checksum: wrapping 8-bit sum of the data bytes. -/
def calc_checksum (data : List Nat) : Nat :=
  data.foldl (fun x y => (x + y) % 256) 0

/-- One shift round of CRC-16/XMODEM: shift left, conditionally xor the
polynomial 0x1021, in u16 arithmetic. -/
def crcRound (c : Nat) : Nat :=
  if c &&& 0x8000 ≠ 0 then ((c <<< 1) ^^^ 0x1021) % 65536 else (c <<< 1) % 65536

/-- Eight CRC shift rounds. -/
def crcRounds : Nat → Nat → Nat
  | 0, c => c
  | n + 1, c => crcRounds n (crcRound c)

/-- Folding one data byte into the CRC state: xor the byte into the high
half, then run eight shift rounds. -/
def crcStepByte (c b : Nat) : Nat :=
  crcRounds 8 ((c ^^^ ((b % 256) <<< 8)) % 65536)

/-- Source fn calc_crc: CRC-16/XMODEM (crc16 crate, poly 0x1021, initial
value 0, no reflection, no final xor) of the data bytes. -/
def calc_crc (data : List Nat) : Nat :=
  data.foldl crcStepByte 0

/-- Source fn get_byte through the event script: succeeds only when the next
event is a byte; a timeout or an exhausted script is a channel error. -/
def readByte : List Ev → Option (Nat × List Ev)
  | .byte b :: rest => some (b, rest)
  | _ => none

/-- Source read_exact of n bytes through the event script. -/
def readBytes : Nat → List Ev → Option (List Nat × List Ev)
  | 0, input => some ([], input)
  | n + 1, input =>
    match readByte input with
    | none => none
    | some (b, rest) => (readBytes n rest).map (fun p => (b :: p.1, p.2))

/-- Frame start byte chosen from the block length (SOH or STX), source
send_stream. -/
def headerByte : BlockLength → Nat
  | .Standard => SOH
  | .OneK => STX

/-- Frame trailer for a payload: one wrapping-sum byte in Standard mode, or
the CRC-16 high byte then low byte (the masks with 0xFF are written as
mod 256). -/
def trailerFor : Checksum → List Nat → List Nat
  | .Standard, p => [calc_checksum p]
  | .Crc16, p => [(calc_crc p >>> 8) % 256, calc_crc p % 256]

/-- A payload chunk padded with the pad byte up to the block length, source
send_stream where the buffer is prefilled with pad_byte. -/
def padBlock (bl : BlockLength) (pad : Nat) (c : List Nat) : List Nat :=
  c ++ List.replicate (bl.size - c.length) pad

/-- One full data frame at block number bn: header, sequence byte
bn mod 256, its complement 255 minus that, padded payload, trailer. -/
def frameFor (mode : Checksum) (bl : BlockLength) (pad : Nat) (bn : Nat)
    (c : List Nat) : List Nat :=
  [headerByte bl, bn % 256, 255 - bn % 256] ++ padBlock bl pad c ++
    trailerFor mode (padBlock bl pad c)

/-- Gas-bounded splitting of a stream into chunks of the block length; the
wrapper chunks supplies enough gas. -/
def chunksGo (bl : BlockLength) : Nat → List Nat → List (List Nat)
  | _, [] => []
  | 0, _ :: _ => []
  | gas + 1, s => s.take bl.size :: chunksGo bl gas (s.drop bl.size)

/-- Split a stream into the successive chunks a sender reads from it. -/
def chunks (bl : BlockLength) (s : List Nat) : List (List Nat) :=
  chunksGo bl s.length s

/-- Number of data blocks the sender emits for a stream. -/
def nBlocks (bl : BlockLength) (s : List Nat) : Nat :=
  (chunks bl s).length

/-- The byte string delivered by the receiver: every chunk padded to the
block length. -/
def padded (bl : BlockLength) (pad : Nat) (s : List Nat) : List Nat :=
  ((chunks bl s).map (padBlock bl pad)).flatten

/-- The concatenated data frames for a list of chunks, numbering from
bn + 1. -/
def framesFrom (mode : Checksum) (bl : BlockLength) (pad : Nat) :
    Nat → List (List Nat) → List Nat
  | _, [] => []
  | bn, c :: cs => frameFor mode bl pad (bn + 1) c ++ framesFrom mode bl pad (bn + 1) cs

/-- All data frames the sender emits for a stream, numbering from bn + 1. -/
def wireBlocks (mode : Checksum) (bl : BlockLength) (pad : Nat) (bn : Nat)
    (s : List Nat) : List Nat :=
  framesFrom mode bl pad bn (chunks bl s)

end Txmodems

namespace Txmodems.Xmodem

/-- Post-iteration checks of the negotiation loop, source start_send lines
after errors += 1: two cancel bytes give Canceled, an exhausted budget
writes CAN and gives ExhaustedRetries, otherwise the loop continues as k. -/
def startSendChk (maxE e cancels : Nat) (rest : List Ev) (k : Trace Checksum) :
    Trace Checksum :=
  if 2 ≤ cancels then ⟨[], [], rest, e, .err .Canceled⟩
  else if maxE ≤ e then ⟨[CAN], [], rest, e, .err (.ExhaustedRetries e)⟩
  else k

/-- Source Xmodem::start_send: read bytes with timeout until NAK selects the
Standard checksum or the byte C selects CRC-16; CAN bytes are counted; any
other byte or a timeout counts one error. -/
def start_send (maxE : Nat) : Nat → Nat → List Ev → Trace Checksum
  | e, _, [] => ⟨[], [], [], e, .err .ioFailure⟩
  | e, cancels, ev :: rest =>
    match ev with
    | .byte b =>
      if b = NAK then ⟨[], [], rest, e, .ok .Standard⟩
      else if b = CRC then ⟨[], [], rest, e, .ok .Crc16⟩
      else
        let cancels' := if b = CAN then cancels + 1 else cancels
        startSendChk maxE (e + 1) cancels' rest
          (start_send maxE (e + 1) cancels' rest)
    | .timeout =>
      startSendChk maxE (e + 1) cancels rest
        (start_send maxE (e + 1) cancels rest)

/-- Post-iteration check of the streaming loop, source send_stream after
errors += 1; on a surviving budget the loop continues as k. -/
def sendStreamChk (maxE e : Nat) (rest : List Ev) (w : List Nat)
    (k : Trace Unit) : Trace Unit :=
  if maxE ≤ e then ⟨w, [], rest, e, .err (.ExhaustedRetries e)⟩
  else seqTrace w [] k

/-- Gas-bounded body of source Xmodem::send_stream: read one chunk (a read
returning zero bytes ends the transfer), emit the frame for block bn + 1,
then wait for one reply byte: ACK continues with the next chunk, anything
else or a timeout counts one error and the loop continues with the next
chunk. The wrapper send_stream supplies enough gas. -/
def sendStreamGo (mode : Checksum) (bl : BlockLength) (pad maxE : Nat) :
    Nat → Nat → Nat → List Nat → List Ev → Trace Unit
  | 0, _, e, s, input =>
    if s = [] then ⟨[], [], input, e, .ok ()⟩ else ⟨[], [], input, e, .stuck⟩
  | gas + 1, bn, e, s, input =>
    if s = [] then ⟨[], [], input, e, .ok ()⟩
    else
      let w := frameFor mode bl pad (bn + 1) (s.take bl.size)
      match input with
      | [] => ⟨w, [], [], e, .err .ioFailure⟩
      | .byte b :: rest =>
        if b = ACK then
          seqTrace w []
            (sendStreamGo mode bl pad maxE gas (bn + 1) e (s.drop bl.size) rest)
        else
          sendStreamChk maxE (e + 1) rest w
            (sendStreamGo mode bl pad maxE gas (bn + 1) (e + 1) (s.drop bl.size) rest)
      | .timeout :: rest =>
        sendStreamChk maxE (e + 1) rest w
          (sendStreamGo mode bl pad maxE gas (bn + 1) (e + 1) (s.drop bl.size) rest)

/-- Source Xmodem::send_stream. -/
def send_stream (mode : Checksum) (bl : BlockLength) (pad maxE : Nat)
    (bn e : Nat) (s : List Nat) (input : List Ev) : Trace Unit :=
  sendStreamGo mode bl pad maxE s.length bn e s input

/-- Post-iteration check of the EOT loop, source finish_send after
errors += 1; the EOT of the current iteration is already on the wire. -/
def finishSendChk (maxE e : Nat) (rest : List Ev) (k : Trace Unit) : Trace Unit :=
  if maxE ≤ e then ⟨[EOT], [], rest, e, .err (.ExhaustedRetries e)⟩
  else seqTrace [EOT] [] k

/-- Source Xmodem::finish_send: emit EOT, wait for one reply byte; ACK ends
the transfer, anything else or a timeout counts one error and EOT is sent
again. -/
def finish_send (maxE : Nat) : Nat → List Ev → Trace Unit
  | e, [] => ⟨[EOT], [], [], e, .err .ioFailure⟩
  | e, ev :: rest =>
    match ev with
    | .byte b =>
      if b = ACK then ⟨[EOT], [], rest, e, .ok ()⟩
      else finishSendChk maxE (e + 1) rest (finish_send maxE (e + 1) rest)
    | .timeout => finishSendChk maxE (e + 1) rest (finish_send maxE (e + 1) rest)

/-- Source Xmodem::send: reset the error counter, negotiate, stream the
blocks, finish with the EOT exchange. -/
def send (maxE pad : Nat) (bl : BlockLength) (stream : List Nat)
    (input : List Ev) : Trace Unit :=
  (start_send maxE 0 0 input).andThen fun mode e i =>
    (send_stream mode bl pad maxE 0 e stream i).andThen fun _ e2 i2 =>
      finish_send maxE e2 i2

/-- The negotiation byte recv writes first: NAK for the Standard checksum,
the byte C for CRC-16. -/
def negByte : Checksum → Nat
  | .Standard => NAK
  | .Crc16 => CRC

/-- Result of parsing one data frame after its start byte: sequence pair
mismatch, a verified payload, or a checksum failure. -/
inductive FrameOut where
  | canceled : FrameOut
  | good : List Nat → FrameOut
  | bad : FrameOut
deriving DecidableEq

/-- Reading one data frame body inside source Xmodem::recv: packet number,
its complement, the payload of packet_size bytes, the trailer; the sequence
check packet_num = pnum and 255 - pnum = pnum_1c decides canceled, then the
checksum comparison decides good or bad. none models a failed get_byte or
read_exact, which recv surfaces as an I/O error. -/
def readFrame (mode : Checksum) (psize pn : Nat) (input : List Ev) :
    Option (FrameOut × List Ev) :=
  match readByte input with
  | none => none
  | some (pnum, i1) =>
    match readByte i1 with
    | none => none
    | some (pnum1c, i2) =>
      match readBytes psize i2 with
      | none => none
      | some (data, i3) =>
        let chk : Option (Bool × List Ev) :=
          match mode with
          | .Standard =>
            (readByte i3).map (fun p => (calc_checksum data == p.1, p.2))
          | .Crc16 =>
            match readByte i3 with
            | none => none
            | some (hi, i4) =>
              (readByte i4).map (fun p => (calc_crc data == hi * 256 + p.1, p.2))
        match chk with
        | none => none
        | some (success, i4) =>
          if pn != pnum || (255 - pnum) != pnum1c then some (.canceled, i4)
          else if success then some (.good data, i4) else some (.bad, i4)

/-- Bottom-of-loop check of source Xmodem::recv: once errors reach
max_errors the receiver writes CAN and fails with ExhaustedRetries,
otherwise the loop continues as k after the writes of this iteration. -/
def recvChk (maxE : Nat) (w o : List Nat) (rest : List Ev) (e : Nat)
    (k : Trace Unit) : Trace Unit :=
  if maxE ≤ e then ⟨w ++ [CAN], o, rest, e, .err (.ExhaustedRetries e)⟩
  else seqTrace w o k

/-- The packet loop of source Xmodem::recv (xmodem.rs): SOH and STX start a
frame of 128 or 1024 payload bytes; a sequence mismatch writes CAN CAN and
cancels, a good frame is ACKed and delivered, a bad checksum is NAKed and
counts one error; EOT is ACKed and ends the transfer; any other byte is
ignored; a timeout counts one error. The fuel argument bounds the number of
iterations, which the source does not. -/
def recvLoop (mode : Checksum) (maxE : Nat) :
    Nat → Nat → Nat → List Ev → Trace Unit
  | 0, _, e, input => ⟨[], [], input, e, .stuck⟩
  | fuel + 1, pn, e, input =>
    match input with
    | [] => ⟨[], [], [], e, .err .ioFailure⟩
    | .timeout :: rest =>
      recvChk maxE [] [] rest (e + 1) (recvLoop mode maxE fuel pn (e + 1) rest)
    | .byte b :: rest =>
      if b = SOH ∨ b = STX then
        match readFrame mode (if b = SOH then 128 else 1024) pn rest with
        | none => ⟨[], [], [], e, .err .ioFailure⟩
        | some (.canceled, rest') => ⟨[CAN, CAN], [], rest', e, .err .Canceled⟩
        | some (.good data, rest') =>
          recvChk maxE [ACK] data rest' e
            (recvLoop mode maxE fuel ((pn + 1) % 256) e rest')
        | some (.bad, rest') =>
          recvChk maxE [NAK] [] rest' (e + 1)
            (recvLoop mode maxE fuel pn (e + 1) rest')
      else if b = EOT then ⟨[ACK], [], rest, e, .ok ()⟩
      else recvChk maxE [] [] rest e (recvLoop mode maxE fuel pn e rest)

/-- Source Xmodem::recv (xmodem.rs): write the negotiation byte, then run
the packet loop expecting packet number 1 with the error counter reset. -/
def recv (mode : Checksum) (maxE fuel : Nat) (input : List Ev) : Trace Unit :=
  seqTrace [negByte mode] [] (recvLoop mode maxE fuel 1 0 input)

/-- The packet loop of source Xmodem::recv in variants/api/xmodem.rs. It
differs from recvLoop in one arm: the match on the received byte has no
ignore arm, and the arm written Some(_EOT) is a binding pattern, so every
byte other than SOH and STX is ACKed and ends the transfer successfully. -/
def recvLoopApi (mode : Checksum) (maxE : Nat) :
    Nat → Nat → Nat → List Ev → Trace Unit
  | 0, _, e, input => ⟨[], [], input, e, .stuck⟩
  | fuel + 1, pn, e, input =>
    match input with
    | [] => ⟨[], [], [], e, .err .ioFailure⟩
    | .timeout :: rest =>
      recvChk maxE [] [] rest (e + 1) (recvLoopApi mode maxE fuel pn (e + 1) rest)
    | .byte b :: rest =>
      if b = SOH ∨ b = STX then
        match readFrame mode (if b = SOH then 128 else 1024) pn rest with
        | none => ⟨[], [], [], e, .err .ioFailure⟩
        | some (.canceled, rest') => ⟨[CAN, CAN], [], rest', e, .err .Canceled⟩
        | some (.good data, rest') =>
          recvChk maxE [ACK] data rest' e
            (recvLoopApi mode maxE fuel ((pn + 1) % 256) e rest')
        | some (.bad, rest') =>
          recvChk maxE [NAK] [] rest' (e + 1)
            (recvLoopApi mode maxE fuel pn (e + 1) rest')
      else ⟨[ACK], [], rest, e, .ok ()⟩

/-- Source Xmodem::recv of variants/api/xmodem.rs. -/
def recvApi (mode : Checksum) (maxE fuel : Nat) (input : List Ev) : Trace Unit :=
  seqTrace [negByte mode] [] (recvLoopApi mode maxE fuel 1 0 input)

end Txmodems.Xmodem

namespace Txmodems.Ymodem

/-- Source YModem::send: let packets_to_send = (file_size + 1023 / 1024) as
u32, with file_size of type u64; the cast is the mod by 2 to the 32. -/
def packets_to_send (file_size : Nat) : Nat :=
  (file_size + 1023 / 1024) % 2 ^ 32

/-- Source YModem::recv: let num_of_packets = file_size_num + 1023 / 1024,
in u32 arithmetic (the addition cannot overflow since 1023 / 1024 = 0). -/
def num_of_packets (file_size_num : Nat) : Nat :=
  file_size_num + 1023 / 1024

/-- One lowercase hexadecimal digit character. -/
def hexDigitChar (d : Nat) : Nat :=
  if d < 10 then 48 + d else 87 + d

/-- Gas-bounded most-significant-first hexadecimal digit accumulation. -/
def hexDigitsGo : Nat → Nat → List Nat → List Nat
  | 0, _, acc => acc
  | _ + 1, 0, acc => acc
  | gas + 1, n, acc => hexDigitsGo gas (n / 16) (hexDigitChar (n % 16) :: acc)

/-- The bytes the write! of {:x} produces: lowercase hexadecimal with no
prefix, the single digit 0 for zero. -/
def hexDigits (n : Nat) : List Nat :=
  if n = 0 then [48] else hexDigitsGo n n []

/-- The 24 byte temp buffer of source YModem::send_start_frame: prefilled
with 0x20, the hexadecimal size written at the start, and copied whole into
the frame. -/
def hexField (file_size : Nat) : List Nat :=
  hexDigits file_size ++ List.replicate (24 - (hexDigits file_size).length) 0x20

/-- The 128 byte header payload of source YModem::send_start_frame: the
filename bytes, the zero byte left by the skipped buffer position, the whole
24 byte temp buffer, and the remaining zero initialised buffer bytes. -/
def send_start_frame_payload (file_name : List Nat) (file_size : Nat) :
    List Nat :=
  file_name ++ [0] ++ hexField file_size ++
    List.replicate (128 - (file_name.length + 1 + 24)) 0

/-- The full 133 byte header frame of source YModem::send_start_frame: SOH,
sequence 0, complement 0xFF, the payload, then the CRC-16 of exactly the 128
payload bytes, high byte first. -/
def send_start_frame_wire (file_name : List Nat) (file_size : Nat) : List Nat :=
  [SOH, 0x00, 0xFF] ++ send_start_frame_payload file_name file_size ++
    trailerFor .Crc16 (send_start_frame_payload file_name file_size)

/-- Source YModem::add_error applied after one failed wait iteration: the
error counter is incremented and checked against max_errors; the
ExhaustedRetries value carries max_errors. The bytes pre were already
written by the iteration. -/
def waitChk (maxE e : Nat) (pre : List Nat) (rest : List Ev) (k : Trace Unit) :
    Trace Unit :=
  if maxE ≤ e then ⟨pre, [], rest, e, .err (.ExhaustedRetries maxE)⟩
  else seqTrace pre [] k

/-- The shared shape of the wait loops in source YModem::send_start_frame,
finish_send and send_end_frame: write pre, read one byte with timeout, stop
on the expected byte, otherwise add_error and loop. -/
def writeWaitFor (pre : List Nat) (expected maxE : Nat) :
    Nat → List Ev → Trace Unit
  | e, [] => ⟨pre, [], [], e, .err .ioFailure⟩
  | e, ev :: rest =>
    match ev with
    | .byte b =>
      if b = expected then ⟨pre, [], rest, e, .ok ()⟩
      else waitChk maxE (e + 1) pre rest (writeWaitFor pre expected maxE (e + 1) rest)
    | .timeout => waitChk maxE (e + 1) pre rest (writeWaitFor pre expected maxE (e + 1) rest)

/-- Post-iteration checks of source YModem::start_send: two cancel bytes
give Canceled, an exhausted budget writes CAN and gives ExhaustedRetries
carrying the error counter, otherwise the loop continues as k. -/
def startChk (maxE e cancels : Nat) (rest : List Ev) (k : Trace Unit) :
    Trace Unit :=
  if 2 ≤ cancels then ⟨[], [], rest, e, .err .Canceled⟩
  else if maxE ≤ e then ⟨[CAN], [], rest, e, .err (.ExhaustedRetries e)⟩
  else k

/-- Source YModem::start_send: read bytes with timeout until the byte C;
CAN bytes are counted; any other byte or a timeout counts one error. -/
def start_send (maxE : Nat) : Nat → Nat → List Ev → Trace Unit
  | e, _, [] => ⟨[], [], [], e, .err .ioFailure⟩
  | e, cancels, ev :: rest =>
    match ev with
    | .byte b =>
      if b = CRC then ⟨[], [], rest, e, .ok ()⟩
      else
        let cancels' := if b = CAN then cancels + 1 else cancels
        startChk maxE (e + 1) cancels' rest (start_send maxE (e + 1) cancels' rest)
    | .timeout =>
      startChk maxE (e + 1) cancels rest (start_send maxE (e + 1) cancels rest)

/-- Source YModem::send_start_frame: write the header frame once, wait for
ACK, then wait for the byte C. -/
def send_start_frame (maxE : Nat) (file_name : List Nat) (file_size e : Nat)
    (input : List Ev) : Trace Unit :=
  seqTrace (send_start_frame_wire file_name file_size) []
    ((writeWaitFor [] ACK maxE e input).andThen fun _ e2 i2 =>
      writeWaitFor [] CRC maxE e2 i2)

/-- Gas-bounded body of source YModem::send_stream: the packet size is 128
exactly when the next block number equals packets_to_send and the last
packet size is at most 128; the read fills the whole 1026 byte tail of the
pad-prefilled buffer, but only packet_size payload bytes are framed and
sent; ACK continues, anything else or a timeout is add_error and the loop
moves to the next chunk. -/
def sendStreamGo (pad maxE pts lastSz : Nat) :
    Nat → Nat → Nat → List Nat → List Ev → Trace Unit
  | 0, _, e, s, input =>
    if s = [] then ⟨[], [], input, e, .ok ()⟩ else ⟨[], [], input, e, .stuck⟩
  | gas + 1, bn, e, s, input =>
    if s = [] then ⟨[], [], input, e, .ok ()⟩
    else
      let psize := if bn + 1 = pts ∧ lastSz ≤ 128 then 128 else 1024
      let c := s.take 1026
      let pl := (c ++ List.replicate (1026 - c.length) pad).take psize
      let b1 := (bn + 1) % 256
      let w := [if psize = 128 then SOH else STX, b1, 255 - b1] ++ pl ++
        [(calc_crc pl >>> 8) % 256, calc_crc pl % 256]
      match input with
      | [] => ⟨w, [], [], e, .err .ioFailure⟩
      | .byte b :: rest =>
        if b = ACK then
          seqTrace w []
            (sendStreamGo pad maxE pts lastSz gas (bn + 1) e (s.drop 1026) rest)
        else
          waitChk maxE (e + 1) w rest
            (sendStreamGo pad maxE pts lastSz gas (bn + 1) (e + 1) (s.drop 1026) rest)
      | .timeout :: rest =>
        waitChk maxE (e + 1) w rest
          (sendStreamGo pad maxE pts lastSz gas (bn + 1) (e + 1) (s.drop 1026) rest)

/-- Source YModem::send_stream. -/
def send_stream (pad maxE pts lastSz bn e : Nat) (s : List Nat)
    (input : List Ev) : Trace Unit :=
  sendStreamGo pad maxE pts lastSz s.length bn e s input

/-- The 133 byte end-of-batch frame of source YModem::send_end_frame: SOH,
0x00, 0xFF, 128 zero bytes, CRC-16 of the zero payload. -/
def end_frame_wire : List Nat :=
  [SOH, 0x00, 0xFF] ++ List.replicate 128 0 ++
    trailerFor .Crc16 (List.replicate 128 0)

/-- Source YModem::send_end_frame: write the end frame once, wait for
ACK. -/
def send_end_frame (maxE e : Nat) (input : List Ev) : Trace Unit :=
  seqTrace end_frame_wire [] (writeWaitFor [] ACK maxE e input)

/-- Source YModem::finish_send: write EOT until NAK, write EOT until ACK,
wait for the byte C, then send the end frame. -/
def finish_send (maxE e : Nat) (input : List Ev) : Trace Unit :=
  (writeWaitFor [EOT] NAK maxE e input).andThen fun _ e1 i1 =>
    (writeWaitFor [EOT] ACK maxE e1 i1).andThen fun _ e2 i2 =>
      (writeWaitFor [] CRC maxE e2 i2).andThen fun _ e3 i3 =>
        send_end_frame maxE e3 i3

/-- Source YModem::send: reset the error counter, wait for the byte C, send
the header frame, stream the blocks, run the EOT handshake and the end
frame. -/
def send (maxE pad : Nat) (file_name : List Nat) (file_size : Nat)
    (stream : List Nat) (input : List Ev) : Trace Unit :=
  (start_send maxE 0 0 input).andThen fun _ e1 i1 =>
    (send_start_frame maxE file_name file_size e1 i1).andThen fun _ e2 i2 =>
      (send_stream pad maxE (packets_to_send file_size) (file_size % 1024)
          0 e2 stream i2).andThen fun _ e3 i3 =>
        finish_send maxE e3 i3

/-- A UTF-8 continuation byte. -/
def utf8Cont (b : Nat) : Bool :=
  decide (0x80 ≤ b ∧ b ≤ 0xBF)

/-- Validity of a byte list as UTF-8, the check performed by
core::str::from_utf8 behind heapless String::from_utf8. -/
def validUtf8 : List Nat → Bool
  | [] => true
  | b :: rest =>
    if b ≤ 0x7F then validUtf8 rest
    else if 0xC2 ≤ b ∧ b ≤ 0xDF then
      match rest with
      | c1 :: r => utf8Cont c1 && validUtf8 r
      | [] => false
    else if b = 0xE0 then
      match rest with
      | c1 :: c2 :: r =>
        decide (0xA0 ≤ c1 ∧ c1 ≤ 0xBF) && utf8Cont c2 && validUtf8 r
      | _ => false
    else if (0xE1 ≤ b ∧ b ≤ 0xEC) ∨ (0xEE ≤ b ∧ b ≤ 0xEF) then
      match rest with
      | c1 :: c2 :: r => utf8Cont c1 && utf8Cont c2 && validUtf8 r
      | _ => false
    else if b = 0xED then
      match rest with
      | c1 :: c2 :: r =>
        decide (0x80 ≤ c1 ∧ c1 ≤ 0x9F) && utf8Cont c2 && validUtf8 r
      | _ => false
    else if b = 0xF0 then
      match rest with
      | c1 :: c2 :: c3 :: r =>
        decide (0x90 ≤ c1 ∧ c1 ≤ 0xBF) && utf8Cont c2 && utf8Cont c3 &&
          validUtf8 r
      | _ => false
    else if 0xF1 ≤ b ∧ b ≤ 0xF3 then
      match rest with
      | c1 :: c2 :: c3 :: r =>
        utf8Cont c1 && utf8Cont c2 && utf8Cont c3 && validUtf8 r
      | _ => false
    else if b = 0xF4 then
      match rest with
      | c1 :: c2 :: c3 :: r =>
        decide (0x80 ≤ c1 ∧ c1 ≤ 0x8F) && utf8Cont c2 && utf8Cont c3 &&
          validUtf8 r
      | _ => false
    else false

/-- The filename and file-size field loops of source YModem::recv: read one
byte, push it into a capacity 32 heapless Vec with unwrap (a full vector
panics), stop after pushing a zero byte. The accumulator holds the vector
content, which the source never clears between header retries. -/
def readField : List Nat → List Ev → Outcome (List Nat × List Ev)
  | _, [] => .err .ioFailure
  | _, .timeout :: _ => .err .ioFailure
  | acc, .byte b :: rest =>
    if 32 ≤ acc.length then .panic
    else if b = 0 then .ok (acc ++ [b], rest)
    else readField (acc ++ [b]) rest

/-- The padding loop of source YModem::recv: read 128 minus the two field
lengths bytes, pushing each into a capacity 32 heapless Vec with unwrap. -/
def readPadding : Nat → List Nat → List Ev → Outcome (List Nat × List Ev)
  | 0, acc, input => .ok (acc, input)
  | count + 1, acc, input =>
    match readByte input with
    | none => .err .ioFailure
    | some (b, rest) =>
      if 32 ≤ acc.length then .panic
      else readPadding count (acc ++ [b]) rest

/-- Gas-bounded handshake loop of source YModem::recv lines 92 to 111: write
the byte C, read with get_byte_timeout; Ok(Some SOH) breaks, any other Ok
value, including the Ok(None) that a timeout becomes, just loops; only the
Err branch, a non-timeout read failure, increments initial_errors and checks
it against max_initial_errors, returning ExhaustedRetries that carries the
main error counter errs. The trace errors field holds initial_errors. -/
def handshakeGo (maxInit errs : Nat) : Nat → Nat → List Ev → Trace Unit
  | 0, ie, input => ⟨[], [], input, ie, .stuck⟩
  | gas + 1, ie, input =>
    match input with
    | [] =>
      if maxInit < ie + 1 then ⟨[CRC], [], [], ie + 1, .err (.ExhaustedRetries errs)⟩
      else seqTrace [CRC] [] (handshakeGo maxInit errs gas (ie + 1) [])
    | .byte b :: rest =>
      if b = SOH then ⟨[CRC], [], rest, ie, .ok ()⟩
      else seqTrace [CRC] [] (handshakeGo maxInit errs gas ie rest)
    | .timeout :: rest => seqTrace [CRC] [] (handshakeGo maxInit errs gas ie rest)

/-- The handshake loop with enough gas for the whole script plus the
initial-error budget. -/
def handshake (maxInit errs ie : Nat) (input : List Ev) : Trace Unit :=
  handshakeGo maxInit errs (input.length + maxInit + 2) ie input

/-- Gas-bounded header loop of source YModem::recv lines 119 to 171: read
the sequence pair, the filename field, the size field (with the UTF-8
unwrap on the filename between them), the padding, and the CRC; a sequence
mismatch writes CAN CAN and cancels, a CRC mismatch writes NAK, increments
the error counter without any bound check, and retries with the buffers
kept; success writes ACK then C and returns the next packet number with the
two fields. -/
def headerGo (maxE : Nat) :
    Nat → Nat → Nat → List Nat → List Nat → List Nat → List Ev →
      Trace (Nat × List Nat × List Nat)
  | 0, _, e, _, _, _, input => ⟨[], [], input, e, .stuck⟩
  | gas + 1, pn, e, nameBuf, sizeBuf, padBuf, input =>
    match readByte input with
    | none => ⟨[], [], [], e, .err .ioFailure⟩
    | some (pnum, i1) =>
      match readByte i1 with
      | none => ⟨[], [], [], e, .err .ioFailure⟩
      | some (pnum1c, i2) =>
        let cancel := pn != pnum || (255 - pnum) != pnum1c
        match readField nameBuf i2 with
        | .err m => ⟨[], [], [], e, .err m⟩
        | .panic => ⟨[], [], [], e, .panic⟩
        | .stuck => ⟨[], [], [], e, .stuck⟩
        | .ok (nameBuf', i3) =>
          if ¬ validUtf8 nameBuf' then ⟨[], [], i3, e, .panic⟩
          else
            match readField sizeBuf i3 with
            | .err m => ⟨[], [], [], e, .err m⟩
            | .panic => ⟨[], [], [], e, .panic⟩
            | .stuck => ⟨[], [], [], e, .stuck⟩
            | .ok (sizeBuf', i4) =>
              match readPadding (128 - nameBuf'.length - sizeBuf'.length)
                  padBuf i4 with
              | .err m => ⟨[], [], [], e, .err m⟩
              | .panic => ⟨[], [], [], e, .panic⟩
              | .stuck => ⟨[], [], [], e, .stuck⟩
              | .ok (padBuf', i5) =>
                match readByte i5 with
                | none => ⟨[], [], [], e, .err .ioFailure⟩
                | some (hi, i6) =>
                  match readByte i6 with
                  | none => ⟨[], [], [], e, .err .ioFailure⟩
                  | some (lo, i7) =>
                    let success :=
                      calc_crc (nameBuf' ++ sizeBuf' ++ padBuf') == hi * 256 + lo
                    if cancel then ⟨[CAN, CAN], [], i7, e, .err .Canceled⟩
                    else if success then
                      ⟨[ACK, CRC], [], i7, e, .ok ((pn + 1) % 256, nameBuf', sizeBuf')⟩
                    else
                      seqTrace [NAK] []
                        (headerGo maxE gas pn (e + 1) nameBuf' sizeBuf' padBuf' i7)

/-- The header loop with enough gas and the empty buffers of source
YModem::recv. -/
def header (maxE pn e : Nat) (input : List Ev) :
    Trace (Nat × List Nat × List Nat) :=
  headerGo maxE (input.length + 1) pn e [] [] [] input

/-- An ASCII decimal digit. -/
def isDigit (c : Nat) : Bool :=
  decide (48 ≤ c ∧ c ≤ 57)

/-- Digit-by-digit u32 parsing: acc is none until a first digit is seen;
any non-digit or an overflow past the u32 range fails. -/
def parseDigits : List Nat → Option Nat → Option Nat
  | [], acc => acc
  | c :: rest, acc =>
    if isDigit c then
      let v := (match acc with | none => 0 | some v => v) * 10 + (c - 48)
      if v < 2 ^ 32 then parseDigits rest (some v) else none
    else none

/-- The u32 FromStr parse of Rust: an optional leading plus sign, then at
least one decimal digit, no overflow. -/
def parse_u32 (s : List Nat) : Option Nat :=
  match s with
  | 43 :: rest => parseDigits rest none
  | _ => parseDigits s none

/-- Source YModem::add_error applied in the data loop after a failed
iteration. -/
def dataChk (maxE e : Nat) (w : List Nat) (rest : List Ev)
    (k : Trace (List Nat)) : Trace (List Nat) :=
  if maxE ≤ e then ⟨w, [], rest, e, .err (.ExhaustedRetries maxE)⟩
  else seqTrace w [] k

/-- The data loop of source YModem::recv lines 188 to 250, a for loop over
0..=final_packet modelled by the countdown iters, whose last iteration is
iters = 1: SOH and STX start a frame whose sequence check uses 0 on the
last iteration and packet_num otherwise; a verified frame is ACKed and then
runs into_array::<1024>().unwrap() (which panics for a 128 byte frame),
from_utf8(...).unwrap() (which panics on non UTF-8 payload), and the write
into the 1024 capacity file buffer (which panics when full); a CRC mismatch
is NAKed with add_error; the first EOT is NAKed, later EOTs are answered
ACK then C, and every EOT advances packet_num; other bytes are ignored;
timeouts run add_error. The ok value is the accumulated file buffer. -/
def dataLoop (maxE : Nat) :
    Nat → Nat → Nat → Bool → List Nat → List Ev → Trace (List Nat)
  | 0, _, e, _, fileBuf, input => ⟨[], [], input, e, .ok fileBuf⟩
  | iters + 1, pn, e, eotSeen, fileBuf, input =>
    match input with
    | [] => ⟨[], [], [], e, .err .ioFailure⟩
    | .timeout :: rest =>
      dataChk maxE (e + 1) [] rest (dataLoop maxE iters pn (e + 1) eotSeen fileBuf rest)
    | .byte b :: rest =>
      if b = SOH ∨ b = STX then
        let psize := if b = SOH then 128 else 1024
        match readByte rest with
        | none => ⟨[], [], [], e, .err .ioFailure⟩
        | some (pnum, i1) =>
          match readByte i1 with
          | none => ⟨[], [], [], e, .err .ioFailure⟩
          | some (pnum1c, i2) =>
            match readBytes psize i2 with
            | none => ⟨[], [], [], e, .err .ioFailure⟩
            | some (data, i3) =>
              match readByte i3 with
              | none => ⟨[], [], [], e, .err .ioFailure⟩
              | some (hi, i4) =>
                match readByte i4 with
                | none => ⟨[], [], [], e, .err .ioFailure⟩
                | some (lo, i5) =>
                  let cancel :=
                    if iters = 0 then (0 : Nat) != pnum || (255 - pnum) != pnum1c
                    else pn != pnum || (255 - pnum) != pnum1c
                  let success := calc_crc data == hi * 256 + lo
                  if cancel then ⟨[CAN, CAN], [], i5, e, .err .Canceled⟩
                  else if success then
                    if psize ≠ 1024 then ⟨[ACK], [], i5, e, .panic⟩
                    else if ¬ validUtf8 data then ⟨[ACK], [], i5, e, .panic⟩
                    else if 1024 < fileBuf.length + data.length then
                      ⟨[ACK], [], i5, e, .panic⟩
                    else
                      seqTrace [ACK] []
                        (dataLoop maxE iters ((pn + 1) % 256) e eotSeen
                          (fileBuf ++ data) i5)
                  else
                    dataChk maxE (e + 1) [NAK] i5
                      (dataLoop maxE iters pn (e + 1) eotSeen fileBuf i5)
      else if b = EOT then
        if ¬ eotSeen then
          seqTrace [NAK] []
            (dataLoop maxE iters ((pn + 1) % 256) e true fileBuf rest)
        else
          seqTrace [ACK, CRC] []
            (dataLoop maxE iters ((pn + 1) % 256) e eotSeen fileBuf rest)
      else dataLoop maxE iters pn e eotSeen fileBuf rest

/-- Source YModem::recv: the handshake, the header frame, the file size
parse (UTF-8 unwrap on the size field, optional digit filter, u32 parse
with the split-at-space fallback whose failure is an unwrap panic), the
data loop of num_of_packets + 2 + 1 iterations, and the delivery of
file_buf[0..file_size], which panics when the parsed size exceeds the
accumulated buffer. The trace out field holds the delivered bytes and the
errors field the main error counter. -/
def recv (maxE maxInit : Nat) (ignoreFlag : Bool) (input : List Ev) :
    Trace (List Nat) :=
  let h := handshake maxInit 0 0 input
  match h.result with
  | .ok _ =>
    let hd := header maxE 0 0 h.input
    match hd.result with
    | .ok (pn1, _nameBuf, sizeBuf) =>
      if ¬ validUtf8 sizeBuf then ⟨h.wire ++ hd.wire, [], hd.input, hd.errors, .panic⟩
      else
        let sizeStr := if ignoreFlag then sizeBuf.filter isDigit else sizeBuf
        match (match parse_u32 sizeStr with
               | some v => some v
               | none => parse_u32 (sizeStr.takeWhile (fun c => c != 32))) with
        | none => ⟨h.wire ++ hd.wire, [], hd.input, hd.errors, .panic⟩
        | some fsize =>
          let dl := dataLoop maxE (num_of_packets fsize + 2 + 1) pn1 hd.errors
            false [] hd.input
          match dl.result with
          | .ok fileBuf =>
            if fileBuf.length < fsize then
              ⟨h.wire ++ hd.wire ++ dl.wire, [], dl.input, dl.errors, .panic⟩
            else
              ⟨h.wire ++ hd.wire ++ dl.wire, fileBuf.take fsize, dl.input,
                dl.errors, .ok (fileBuf.take fsize)⟩
          | .err m => ⟨h.wire ++ hd.wire ++ dl.wire, [], dl.input, dl.errors, .err m⟩
          | .panic => ⟨h.wire ++ hd.wire ++ dl.wire, [], dl.input, dl.errors, .panic⟩
          | .stuck => ⟨h.wire ++ hd.wire ++ dl.wire, [], dl.input, dl.errors, .stuck⟩
    | .err m => ⟨h.wire ++ hd.wire, [], hd.input, hd.errors, .err m⟩
    | .panic => ⟨h.wire ++ hd.wire, [], hd.input, hd.errors, .panic⟩
    | .stuck => ⟨h.wire ++ hd.wire, [], hd.input, hd.errors, .stuck⟩
  | .err m => ⟨h.wire, [], h.input, 0, .err m⟩
  | .panic => ⟨h.wire, [], h.input, 0, .panic⟩
  | .stuck => ⟨h.wire, [], h.input, 0, .stuck⟩

end Txmodems.Ymodem

namespace Txmodems

/-- The error counter of a finished operation is within the budget, and a
successful return leaves it strictly below. -/
def ErrBound {α : Type} (maxE : Nat) (t : Trace α) : Prop :=
  t.errors ≤ maxE ∧ ∀ a, t.result = .ok a → t.errors < maxE

/-- An ExhaustedRetries return carries exactly max_errors and the counter
stopped exactly there. -/
def ErrExact {α : Type} (maxE : Nat) (t : Trace α) : Prop :=
  ∀ n, t.result = .err (.ExhaustedRetries n) → n = maxE ∧ t.errors = maxE

end Txmodems

namespace Txmodems

theorem BlockLength.size_pos (bl : BlockLength) : 0 < bl.size := by
  cases bl <;> simp [BlockLength.size]

theorem crcRound_lt (c : Nat) : crcRound c < 65536 := by
  unfold crcRound
  split <;> exact Nat.mod_lt _ (by omega)

theorem crcRounds_lt (n c : Nat) (h : c < 65536) : crcRounds n c < 65536 := by
  induction n generalizing c with
  | zero => exact h
  | succ n ih => exact ih _ (crcRound_lt c)

theorem crcStepByte_lt (c b : Nat) : crcStepByte c b < 65536 := by
  unfold crcStepByte
  exact crcRounds_lt _ _ (Nat.mod_lt _ (by omega))

theorem calc_crc_lt (data : List Nat) : calc_crc data < 65536 := by
  unfold calc_crc
  have h : ∀ (l : List Nat) (a : Nat), a < 65536 → l.foldl crcStepByte a < 65536 := by
    intro l
    induction l with
    | nil => intro a ha; exact ha
    | cons x xs ih => intro a _; exact ih _ (crcStepByte_lt a x)
  exact h data 0 (by omega)

/-- Splitting a u16 value into high and low bytes and recombining them by
(hi shifted left 8) + lo gives the value back. -/
theorem crc_split_join (c : Nat) (h : c < 65536) :
    ((c >>> 8) % 256) * 256 + c % 256 = c := by
  rw [Nat.shiftRight_eq_div_pow]
  have h1 : c / 2 ^ 8 < 256 := by omega
  rw [Nat.mod_eq_of_lt h1]
  omega

theorem readBytes_append (l : List Nat) (k : List Ev) :
    readBytes l.length (l.map Ev.byte ++ k) = some (l, k) := by
  induction l with
  | nil => rfl
  | cons b bs ih => simp [readBytes, readByte, ih]

theorem chunksGo_irrel (bl : BlockLength) :
    ∀ gas gas' s, s.length ≤ gas → s.length ≤ gas' →
      chunksGo bl gas s = chunksGo bl gas' s := by
  intro gas
  induction gas with
  | zero =>
    intro gas' s hs _
    have : s = [] := List.length_eq_zero.mp (by omega)
    subst this
    cases gas' <;> rfl
  | succ gas ih =>
    intro gas' s hs hs'
    cases s with
    | nil => cases gas' <;> rfl
    | cons a s =>
      cases gas' with
      | zero => simp at hs'
      | succ gas' =>
        simp only [chunksGo]
        congr 1
        refine ih gas' _ ?_ ?_ <;>
          simp only [List.length_drop] <;>
          have := bl.size_pos <;> simp at hs hs' ⊢ <;> omega

theorem chunks_nil (bl : BlockLength) : chunks bl [] = [] := rfl

theorem chunks_cons (bl : BlockLength) (s : List Nat) (h : s ≠ []) :
    chunks bl s = s.take bl.size :: chunks bl (s.drop bl.size) := by
  unfold chunks
  cases s with
  | nil => exact absurd rfl h
  | cons a s =>
    simp only [List.length_cons, chunksGo]
    congr 1
    refine chunksGo_irrel bl _ _ _ ?_ ?_ <;>
      simp only [List.length_drop] <;>
      have := bl.size_pos <;> (first | (simp; omega) | simp)

/-- Induction along the chunk structure of a stream. -/
theorem chunk_ind (bl : BlockLength) {P : List Nat → Prop} (h0 : P [])
    (h1 : ∀ s, s ≠ [] → P (List.drop bl.size s) → P s) : ∀ s, P s := by
  intro s
  generalize hn : s.length = n
  induction n using Nat.strong_induction_on generalizing s with
  | _ n ih =>
    cases s with
    | nil => exact h0
    | cons a s =>
      refine h1 _ (by simp) ?_
      refine ih ((a :: s).drop bl.size).length ?_ _ rfl
      simp only [List.length_drop] at *
      have := bl.size_pos
      simp at hn ⊢
      omega

theorem padBlock_length (bl : BlockLength) (pad : Nat) (c : List Nat)
    (hc : c.length ≤ bl.size) : (padBlock bl pad c).length = bl.size := by
  simp [padBlock]
  omega

theorem nBlocks_nil (bl : BlockLength) : nBlocks bl [] = 0 := rfl

theorem nBlocks_cons (bl : BlockLength) (s : List Nat) (h : s ≠ []) :
    nBlocks bl s = nBlocks bl (s.drop bl.size) + 1 := by
  simp [nBlocks, chunks_cons bl s h]

theorem padded_nil (bl : BlockLength) (pad : Nat) : padded bl pad [] = [] := rfl

theorem padded_cons (bl : BlockLength) (pad : Nat) (s : List Nat) (h : s ≠ []) :
    padded bl pad s =
      padBlock bl pad (s.take bl.size) ++ padded bl pad (s.drop bl.size) := by
  simp [padded, chunks_cons bl s h]

theorem wireBlocks_nil (mode : Checksum) (bl : BlockLength) (pad bn : Nat) :
    wireBlocks mode bl pad bn [] = [] := rfl

theorem wireBlocks_cons (mode : Checksum) (bl : BlockLength) (pad bn : Nat)
    (s : List Nat) (h : s ≠ []) :
    wireBlocks mode bl pad bn s =
      frameFor mode bl pad (bn + 1) (s.take bl.size) ++
        wireBlocks mode bl pad (bn + 1) (s.drop bl.size) := by
  simp [wireBlocks, chunks_cons bl s h, framesFrom]

/-- The delivered stream is the payload followed by fewer than one block of
pad bytes. -/
theorem padded_spec (bl : BlockLength) (pad : Nat) :
    ∀ s, ∃ d, padded bl pad s = s ++ List.replicate d pad ∧ d < bl.size := by
  refine chunk_ind bl ?_ ?_
  · exact ⟨0, by simp [padded_nil], bl.size_pos⟩
  · intro s hs ih
    by_cases hlen : s.length ≤ bl.size
    · refine ⟨bl.size - s.length, ?_, ?_⟩
      · rw [padded_cons bl pad s hs, List.take_of_length_le hlen]
        have hdrop : s.drop bl.size = [] := by
          apply List.drop_eq_nil_of_le
          exact hlen
        rw [hdrop, padded_nil]
        simp [padBlock]
      · have : 0 < s.length := List.length_pos.mpr hs
        omega
    · obtain ⟨d, hd, hdlt⟩ := ih
      refine ⟨d, ?_, hdlt⟩
      rw [padded_cons bl pad s hs, hd]
      have htake : (s.take bl.size).length = bl.size := by
        simp
        omega
      have : padBlock bl pad (s.take bl.size) = s.take bl.size := by
        simp [padBlock, htake]
      rw [this, ← List.append_assoc, List.take_append_drop]

end Txmodems

namespace Txmodems.Xmodem

theorem start_send_neg (maxE : Nat) (mode : Checksum) (r : List Ev) :
    start_send maxE 0 0 (Ev.byte (negByte mode) :: r) = ⟨[], [], r, 0, .ok mode⟩ := by
  cases mode <;> simp [start_send, negByte, NAK, CRC]

/-- When every block is answered with ACK, the streaming loop emits exactly
the data frames for the stream, consumes one ACK per block, and returns
successfully with the error counter untouched. -/
theorem sendStreamGo_acks (mode : Checksum) (bl : BlockLength) (pad maxE : Nat) :
    ∀ s gas bn e rest, s.length ≤ gas →
      sendStreamGo mode bl pad maxE gas bn e s
          (List.replicate (nBlocks bl s) (Ev.byte ACK) ++ rest) =
        ⟨wireBlocks mode bl pad bn s, [], rest, e, .ok ()⟩ := by
  refine chunk_ind bl ?_ ?_
  · intro gas bn e rest _
    cases gas <;> simp [sendStreamGo, nBlocks_nil, wireBlocks_nil]
  · intro s hs ih gas bn e rest hgas
    have hpos : 0 < s.length := List.length_pos.mpr hs
    cases gas with
    | zero => omega
    | succ gas =>
      rw [nBlocks_cons bl s hs, List.replicate_succ]
      have hdroplen : (s.drop bl.size).length ≤ gas := by
        simp
        have := bl.size_pos
        omega
      have := ih gas (bn + 1) e rest hdroplen
      simp only [sendStreamGo, if_neg hs]
      simp only [List.cons_append]
      simp [this, seqTrace, wireBlocks_cons mode bl pad bn s hs]

theorem finish_send_ack (maxE e : Nat) (r : List Ev) :
    finish_send maxE e (Ev.byte ACK :: r) = ⟨[EOT], [], r, e, .ok ()⟩ := by
  simp [finish_send]

/-- The full sender against a script of one negotiation byte and an ACK per
block plus one for EOT. -/
theorem send_acks (mode : Checksum) (bl : BlockLength) (pad maxE : Nat)
    (P : List Nat) :
    send maxE pad bl P
        ((negByte mode :: (List.replicate (nBlocks bl P) ACK ++ [ACK])).map Ev.byte) =
      ⟨wireBlocks mode bl pad 0 P ++ [EOT], [], [], 0, .ok ()⟩ := by
  unfold send
  rw [List.map_cons, start_send_neg]
  have h2 := sendStreamGo_acks mode bl pad maxE P P.length 0 0 [Ev.byte ACK]
    (le_refl _)
  simp only [Trace.andThen, List.map_append, List.map_replicate, List.map_cons,
    List.map_nil]
  unfold send_stream
  rw [h2]
  simp [finish_send_ack, Trace.andThen]

theorem headerByte_soh_stx (bl : BlockLength) :
    headerByte bl = SOH ∨ headerByte bl = STX := by
  cases bl <;> simp [headerByte]

theorem headerByte_size (bl : BlockLength) :
    (if headerByte bl = SOH then 128 else 1024) = bl.size := by
  cases bl <;> norm_num [headerByte, BlockLength.size, SOH, STX]

/-- Parsing a well-formed frame produced by the sender succeeds: the
sequence pair matches and the checksum verifies. -/
theorem readFrame_frame (mode : Checksum) (bl : BlockLength) (pad bn : Nat)
    (c : List Nat) (hc : c.length ≤ bl.size) (k : List Ev) :
    readFrame mode bl.size ((bn + 1) % 256)
        (Ev.byte ((bn + 1) % 256) :: Ev.byte (255 - (bn + 1) % 256) ::
          ((padBlock bl pad c).map Ev.byte ++
            ((trailerFor mode (padBlock bl pad c)).map Ev.byte ++ k))) =
      some (.good (padBlock bl pad c), k) := by
  have hlen := padBlock_length bl pad c hc
  unfold readFrame
  simp only [readByte]
  rw [← hlen, readBytes_append]
  have hj := crc_split_join (calc_crc (padBlock bl pad c))
    (calc_crc_lt (padBlock bl pad c))
  cases mode with
  | Standard => simp [trailerFor, readByte]
  | Crc16 =>
    simp only [trailerFor, List.map_cons, List.map_nil, List.cons_append,
      List.nil_append, readByte, Option.map_some]
    simp [hj]

theorem mod256_step (a : Nat) : (a % 256 + 1) % 256 = (a + 1) % 256 := by
  omega

/-- Receiving the sender frames for a stream followed by EOT: every frame is
ACKed and delivered padded, then EOT is ACKed and the receiver returns
successfully. -/
theorem recvLoop_frames (mode : Checksum) (bl : BlockLength) (pad maxE : Nat) :
    ∀ s bn e fuel rest, e < maxE → nBlocks bl s < fuel →
      recvLoop mode maxE fuel ((bn + 1) % 256) e
          ((wireBlocks mode bl pad bn s).map Ev.byte ++ Ev.byte EOT :: rest) =
        ⟨List.replicate (nBlocks bl s) ACK ++ [ACK], padded bl pad s, rest, e,
          .ok ()⟩ := by
  refine chunk_ind bl ?_ ?_
  · intro bn e fuel rest _ hf
    rw [nBlocks_nil] at hf ⊢
    cases fuel with
    | zero => omega
    | succ fuel =>
      simp [wireBlocks_nil, recvLoop, padded_nil, EOT, SOH, STX]
  · intro s hs ih bn e fuel rest he hf
    rw [nBlocks_cons bl s hs] at hf ⊢
    cases fuel with
    | zero => omega
    | succ fuel =>
      rw [wireBlocks_cons mode bl pad bn s hs]
      simp only [frameFor, List.map_append, List.map_cons, List.map_nil,
        List.append_assoc, List.cons_append, List.nil_append]
      simp only [recvLoop]
      rw [if_pos (headerByte_soh_stx bl), headerByte_size bl]
      rw [readFrame_frame mode bl pad bn (s.take bl.size)
        (by simp) ((wireBlocks mode bl pad (bn + 1) (s.drop bl.size)).map Ev.byte ++
          Ev.byte EOT :: rest)]
      simp only [recvChk, if_neg (show ¬ maxE ≤ e by omega), mod256_step]
      rw [ih (bn + 1) e fuel rest he (by omega)]
      simp [seqTrace, padded_cons bl pad s hs, List.replicate_succ]

end Txmodems.Xmodem

namespace Txmodems

/-- Claim C1: for every payload P and checksum mode M (and either block
length), running Xmodem send on P against Xmodem recv configured with M,
with each end reading exactly the bytes the other end writes, both ends
succeed and the receiver delivers a byte string with P as a prefix, fewer
than block_length extra bytes, the extra bytes all equal to the configured
pad byte. -/
theorem xmodem_round_trip (P : List Nat) (mode : Checksum) (bl : BlockLength)
    (pad maxE : Nat) (_hb : ∀ b ∈ P, b < 256) (hm : 0 < maxE) :
    ∃ sendT recvT : Trace Unit,
      sendT = Xmodem.send maxE pad bl P (recvT.wire.map Ev.byte) ∧
      recvT = Xmodem.recv mode maxE (nBlocks bl P + 1) (sendT.wire.map Ev.byte) ∧
      sendT.result = .ok () ∧ recvT.result = .ok () ∧
      sendT.errors = 0 ∧ recvT.errors = 0 ∧
      P <+: recvT.out ∧
      recvT.out.length - P.length < bl.size ∧
      recvT.out.drop P.length =
        List.replicate (recvT.out.length - P.length) pad := by
  obtain ⟨d, hpad, hdlt⟩ := padded_spec bl pad P
  refine ⟨⟨wireBlocks mode bl pad 0 P ++ [EOT], [], [], 0, .ok ()⟩,
    ⟨Xmodem.negByte mode :: (List.replicate (nBlocks bl P) ACK ++ [ACK]),
      padded bl pad P, [], 0, .ok ()⟩, ?_, ?_, rfl, rfl, rfl, rfl, ?_, ?_, ?_⟩
  · exact (Xmodem.send_acks mode bl pad maxE P).symm
  · have hRL := Xmodem.recvLoop_frames mode bl pad maxE P 0 0
      (nBlocks bl P + 1) [] hm (by omega)
    norm_num at hRL
    unfold Xmodem.recv
    simp only [List.map_append, List.map_cons, List.map_nil]
    rw [hRL]
    simp [seqTrace]
  · exact ⟨List.replicate d pad, hpad.symm⟩
  · simp only [hpad]
    simp [hdlt]
  · simp only [hpad]
    simp [List.drop_left]

theorem seqTrace_errors {α : Type} (w o : List Nat) (t : Trace α) :
    (seqTrace w o t).errors = t.errors := rfl

theorem seqTrace_result {α : Type} (w o : List Nat) (t : Trace α) :
    (seqTrace w o t).result = t.result := rfl

theorem ErrBound_seqTrace {α : Type} (maxE : Nat) (w o : List Nat)
    (t : Trace α) (h : ErrBound maxE t) : ErrBound maxE (seqTrace w o t) := h

theorem ErrExact_seqTrace {α : Type} (maxE : Nat) (w o : List Nat)
    (t : Trace α) (h : ErrExact maxE t) : ErrExact maxE (seqTrace w o t) := h

/-- Sequencing preserves the error invariants when the continuation does. -/
theorem andThen_inv {α β : Type} (maxE : Nat) (t : Trace α)
    (f : α → Nat → List Ev → Trace β)
    (ht : ErrBound maxE t ∧ ErrExact maxE t)
    (hf : ∀ a e i, e < maxE →
      ErrBound maxE (f a e i) ∧ ErrExact maxE (f a e i)) :
    ErrBound maxE (t.andThen f) ∧ ErrExact maxE (t.andThen f) := by
  obtain ⟨⟨hb1, hb2⟩, hx⟩ := ht
  unfold Trace.andThen
  cases hr : t.result with
  | ok a =>
    have he := hb2 a hr
    have := hf a t.errors t.input he
    exact ⟨⟨this.1.1, fun b hb => this.1.2 b hb⟩, fun n hn => this.2 n hn⟩
  | err m =>
    refine ⟨⟨hb1, by simp⟩, fun n hn => ?_⟩
    simp at hn
    subst hn
    exact hx n hr
  | panic => exact ⟨⟨hb1, by simp⟩, by simp [ErrExact]⟩
  | stuck => exact ⟨⟨hb1, by simp⟩, by simp [ErrExact]⟩

end Txmodems

namespace Txmodems.Xmodem

theorem start_send_inv (maxE : Nat) :
    ∀ (input : List Ev) (e c : Nat), e < maxE →
      ErrBound maxE (start_send maxE e c input) ∧
      ErrExact maxE (start_send maxE e c input) := by
  intro input
  induction input with
  | nil =>
    intro e c he
    constructor
    · exact ⟨by simp [start_send]; omega, by simp [start_send]⟩
    · intro n hn
      simp [start_send] at hn
  | cons ev rest ih =>
    intro e c he
    have hchk : ∀ c', ErrBound maxE (startSendChk maxE (e + 1) c' rest
        (start_send maxE (e + 1) c' rest)) ∧
        ErrExact maxE (startSendChk maxE (e + 1) c' rest
        (start_send maxE (e + 1) c' rest)) := by
      intro c'
      unfold startSendChk
      by_cases hcan : 2 ≤ c'
      · rw [if_pos hcan]
        exact ⟨⟨by simp; omega, by simp⟩, by intro n hn; simp at hn⟩
      · rw [if_neg hcan]
        by_cases hex : maxE ≤ e + 1
        · rw [if_pos hex]
          refine ⟨⟨by simp; omega, by simp⟩, ?_⟩
          intro n hn
          simp at hn
          subst hn
          simp
          omega
        · rw [if_neg hex]
          exact ih (e + 1) c' (by omega)
    cases ev with
    | byte b =>
      by_cases h1 : b = NAK
      · subst h1
        constructor
        · exact ⟨by simp [start_send]; omega, by simp [start_send]; omega⟩
        · intro n hn
          simp [start_send] at hn
      · by_cases h2 : b = CRC
        · subst h2
          constructor
          · exact ⟨by simp [start_send, NAK, CRC]; omega,
              by simp [start_send, NAK, CRC]; omega⟩
          · intro n hn
            simp [start_send, NAK, CRC] at hn
        · simp only [start_send, if_neg h1, if_neg h2]
          exact hchk _
    | timeout =>
      simp only [start_send]
      exact hchk c

theorem sendStreamGo_inv (mode : Checksum) (bl : BlockLength) (pad maxE : Nat) :
    ∀ (gas : Nat) (s : List Nat) (input : List Ev) (bn e : Nat), e < maxE →
      ErrBound maxE (sendStreamGo mode bl pad maxE gas bn e s input) ∧
      ErrExact maxE (sendStreamGo mode bl pad maxE gas bn e s input) := by
  intro gas
  induction gas with
  | zero =>
    intro s input bn e he
    by_cases hs : s = []
    · constructor
      · exact ⟨by simp [sendStreamGo, hs]; omega, by simp [sendStreamGo, hs]; omega⟩
      · intro n hn
        simp [sendStreamGo, hs] at hn
    · constructor
      · exact ⟨by simp [sendStreamGo, hs]; omega, by simp [sendStreamGo, hs]⟩
      · intro n hn
        simp [sendStreamGo, hs] at hn
  | succ gas ih =>
    intro s input bn e he
    by_cases hs : s = []
    · constructor
      · exact ⟨by simp [sendStreamGo, hs]; omega, by simp [sendStreamGo, hs]; omega⟩
      · intro n hn
        simp [sendStreamGo, hs] at hn
    · have hchk : ∀ w rest, ErrBound maxE (sendStreamChk maxE (e + 1) rest w
          (sendStreamGo mode bl pad maxE gas (bn + 1) (e + 1) (s.drop bl.size) rest)) ∧
          ErrExact maxE (sendStreamChk maxE (e + 1) rest w
          (sendStreamGo mode bl pad maxE gas (bn + 1) (e + 1) (s.drop bl.size) rest)) := by
        intro w rest
        unfold sendStreamChk
        by_cases hex : maxE ≤ e + 1
        · rw [if_pos hex]
          refine ⟨⟨by simp; omega, by simp⟩, ?_⟩
          intro n hn
          simp at hn
          subst hn
          simp
          omega
        · rw [if_neg hex]
          have := ih (s.drop bl.size) rest (bn + 1) (e + 1) (by omega)
          exact ⟨ErrBound_seqTrace _ _ _ _ this.1, ErrExact_seqTrace _ _ _ _ this.2⟩
      cases input with
      | nil =>
        simp only [sendStreamGo, if_neg hs]
        constructor
        · exact ⟨by simp; omega, by simp⟩
        · intro n hn
          simp at hn
      | cons ev rest =>
        cases ev with
        | byte b =>
          simp only [sendStreamGo, if_neg hs]
          by_cases hb : b = ACK
          · rw [if_pos hb]
            have := ih (s.drop bl.size) rest (bn + 1) e he
            exact ⟨ErrBound_seqTrace _ _ _ _ this.1, ErrExact_seqTrace _ _ _ _ this.2⟩
          · rw [if_neg hb]
            exact hchk _ _
        | timeout =>
          simp only [sendStreamGo, if_neg hs]
          exact hchk _ _

theorem finish_send_inv (maxE : Nat) :
    ∀ (input : List Ev) (e : Nat), e < maxE →
      ErrBound maxE (finish_send maxE e input) ∧
      ErrExact maxE (finish_send maxE e input) := by
  intro input
  induction input with
  | nil =>
    intro e he
    constructor
    · exact ⟨by simp [finish_send]; omega, by simp [finish_send]⟩
    · intro n hn
      simp [finish_send] at hn
  | cons ev rest ih =>
    intro e he
    have hchk : ErrBound maxE (finishSendChk maxE (e + 1) rest
        (finish_send maxE (e + 1) rest)) ∧
        ErrExact maxE (finishSendChk maxE (e + 1) rest
        (finish_send maxE (e + 1) rest)) := by
      unfold finishSendChk
      by_cases hex : maxE ≤ e + 1
      · rw [if_pos hex]
        refine ⟨⟨by simp; omega, by simp⟩, ?_⟩
        intro n hn
        simp at hn
        subst hn
        simp
        omega
      · rw [if_neg hex]
        have := ih (e + 1) (by omega)
        exact ⟨ErrBound_seqTrace _ _ _ _ this.1, ErrExact_seqTrace _ _ _ _ this.2⟩
    cases ev with
    | byte b =>
      by_cases hb : b = ACK
      · subst hb
        constructor
        · exact ⟨by simp [finish_send]; omega, by simp [finish_send]; omega⟩
        · intro n hn
          simp [finish_send] at hn
      · simp only [finish_send, if_neg hb]
        exact hchk
    | timeout =>
      simp only [finish_send]
      exact hchk

/-- The full XMODEM sender keeps the error counter within the budget. -/
theorem send_inv (maxE pad : Nat) (bl : BlockLength) (stream : List Nat)
    (input : List Ev) (hm : 0 < maxE) :
    ErrBound maxE (send maxE pad bl stream input) ∧
    ErrExact maxE (send maxE pad bl stream input) := by
  unfold send
  refine andThen_inv maxE _ _ (start_send_inv maxE input 0 0 hm) ?_
  intro mode e i he
  refine andThen_inv maxE _ _ (sendStreamGo_inv mode bl pad maxE stream.length
    stream i 0 e he) ?_
  intro _ e2 i2 he2
  exact finish_send_inv maxE i2 e2 he2

theorem recvChk_inv (maxE e : Nat) (w o : List Nat) (rest : List Ev)
    (k : Trace Unit) (he : e ≤ maxE)
    (hk : maxE ≤ e ∨ (ErrBound maxE k ∧ ErrExact maxE k)) :
    ErrBound maxE (recvChk maxE w o rest e k) ∧
    ErrExact maxE (recvChk maxE w o rest e k) := by
  unfold recvChk
  by_cases hex : maxE ≤ e
  · rw [if_pos hex]
    refine ⟨⟨by simp; omega, by simp⟩, ?_⟩
    intro n hn
    simp at hn
    subst hn
    simp
    omega
  · rw [if_neg hex]
    rcases hk with h | h
    · omega
    · exact ⟨ErrBound_seqTrace _ _ _ _ h.1, ErrExact_seqTrace _ _ _ _ h.2⟩

theorem recvLoop_inv (mode : Checksum) (maxE : Nat) :
    ∀ (fuel : Nat) (input : List Ev) (pn e : Nat), e < maxE →
      ErrBound maxE (recvLoop mode maxE fuel pn e input) ∧
      ErrExact maxE (recvLoop mode maxE fuel pn e input) := by
  intro fuel
  induction fuel with
  | zero =>
    intro input pn e he
    constructor
    · exact ⟨by simp [recvLoop]; omega, by simp [recvLoop]⟩
    · intro n hn
      simp [recvLoop] at hn
  | succ fuel ih =>
    intro input pn e he
    cases input with
    | nil =>
      constructor
      · exact ⟨by simp [recvLoop]; omega, by simp [recvLoop]⟩
      · intro n hn
        simp [recvLoop] at hn
    | cons ev rest =>
      cases ev with
      | timeout =>
        simp only [recvLoop]
        refine recvChk_inv maxE (e + 1) _ _ _ _ (by omega) ?_
        by_cases hex : maxE ≤ e + 1
        · exact Or.inl hex
        · exact Or.inr (ih rest pn (e + 1) (by omega))
      | byte b =>
        simp only [recvLoop]
        by_cases hss : b = SOH ∨ b = STX
        · rw [if_pos hss]
          cases hrf : readFrame mode (if b = SOH then 128 else 1024) pn rest with
          | none =>
            constructor
            · exact ⟨by simp; omega, by simp⟩
            · intro n hn
              simp at hn
          | some p =>
            obtain ⟨fo, rest'⟩ := p
            cases fo with
            | canceled =>
              constructor
              · exact ⟨by simp; omega, by simp⟩
              · intro n hn
                simp at hn
            | good data =>
              exact recvChk_inv maxE e _ _ _ _ (by omega)
                (Or.inr (ih rest' _ e he))
            | bad =>
              refine recvChk_inv maxE (e + 1) _ _ _ _ (by omega) ?_
              by_cases hex : maxE ≤ e + 1
              · exact Or.inl hex
              · exact Or.inr (ih rest' pn (e + 1) (by omega))
        · rw [if_neg hss]
          by_cases heot : b = EOT
          · rw [if_pos heot]
            constructor
            · exact ⟨by simp; omega, fun a _ => by simpa using he⟩
            · intro n hn
              simp at hn
          · rw [if_neg heot]
            exact recvChk_inv maxE e _ _ _ _ (by omega) (Or.inr (ih rest pn e he))

/-- The full XMODEM receiver keeps the error counter within the budget. -/
theorem recv_inv (mode : Checksum) (maxE fuel : Nat) (input : List Ev)
    (hm : 0 < maxE) :
    ErrBound maxE (recv mode maxE fuel input) ∧
    ErrExact maxE (recv mode maxE fuel input) := by
  have := recvLoop_inv mode maxE fuel input 1 0 hm
  exact ⟨ErrBound_seqTrace _ _ _ _ this.1, ErrExact_seqTrace _ _ _ _ this.2⟩

theorem recvLoopApi_inv (mode : Checksum) (maxE : Nat) :
    ∀ (fuel : Nat) (input : List Ev) (pn e : Nat), e < maxE →
      ErrBound maxE (recvLoopApi mode maxE fuel pn e input) ∧
      ErrExact maxE (recvLoopApi mode maxE fuel pn e input) := by
  intro fuel
  induction fuel with
  | zero =>
    intro input pn e he
    constructor
    · exact ⟨by simp [recvLoopApi]; omega, by simp [recvLoopApi]⟩
    · intro n hn
      simp [recvLoopApi] at hn
  | succ fuel ih =>
    intro input pn e he
    cases input with
    | nil =>
      constructor
      · exact ⟨by simp [recvLoopApi]; omega, by simp [recvLoopApi]⟩
      · intro n hn
        simp [recvLoopApi] at hn
    | cons ev rest =>
      cases ev with
      | timeout =>
        simp only [recvLoopApi]
        refine recvChk_inv maxE (e + 1) _ _ _ _ (by omega) ?_
        by_cases hex : maxE ≤ e + 1
        · exact Or.inl hex
        · exact Or.inr (ih rest pn (e + 1) (by omega))
      | byte b =>
        simp only [recvLoopApi]
        by_cases hss : b = SOH ∨ b = STX
        · rw [if_pos hss]
          cases hrf : readFrame mode (if b = SOH then 128 else 1024) pn rest with
          | none =>
            constructor
            · exact ⟨by simp; omega, by simp⟩
            · intro n hn
              simp at hn
          | some p =>
            obtain ⟨fo, rest'⟩ := p
            cases fo with
            | canceled =>
              constructor
              · exact ⟨by simp; omega, by simp⟩
              · intro n hn
                simp at hn
            | good data =>
              exact recvChk_inv maxE e _ _ _ _ (by omega)
                (Or.inr (ih rest' _ e he))
            | bad =>
              refine recvChk_inv maxE (e + 1) _ _ _ _ (by omega) ?_
              by_cases hex : maxE ≤ e + 1
              · exact Or.inl hex
              · exact Or.inr (ih rest' pn (e + 1) (by omega))
        · rw [if_neg hss]
          constructor
          · exact ⟨by simp; omega, fun a _ => by simpa using he⟩
          · intro n hn
            simp at hn

theorem recvApi_inv (mode : Checksum) (maxE fuel : Nat) (input : List Ev)
    (hm : 0 < maxE) :
    ErrBound maxE (recvApi mode maxE fuel input) ∧
    ErrExact maxE (recvApi mode maxE fuel input) := by
  have := recvLoopApi_inv mode maxE fuel input 1 0 hm
  exact ⟨ErrBound_seqTrace _ _ _ _ this.1, ErrExact_seqTrace _ _ _ _ this.2⟩

end Txmodems.Xmodem

namespace Txmodems.Ymodem

theorem writeWaitFor_inv (pre : List Nat) (x maxE : Nat) :
    ∀ (input : List Ev) (e : Nat), e < maxE →
      ErrBound maxE (writeWaitFor pre x maxE e input) ∧
      ErrExact maxE (writeWaitFor pre x maxE e input) := by
  intro input
  induction input with
  | nil =>
    intro e he
    constructor
    · exact ⟨by simp [writeWaitFor]; omega, by simp [writeWaitFor]⟩
    · intro n hn
      simp [writeWaitFor] at hn
  | cons ev rest ih =>
    intro e he
    have hchk : ErrBound maxE (waitChk maxE (e + 1) pre rest
        (writeWaitFor pre x maxE (e + 1) rest)) ∧
        ErrExact maxE (waitChk maxE (e + 1) pre rest
        (writeWaitFor pre x maxE (e + 1) rest)) := by
      unfold waitChk
      by_cases hex : maxE ≤ e + 1
      · rw [if_pos hex]
        refine ⟨⟨by simp; omega, by simp⟩, ?_⟩
        intro n hn
        simp at hn
        subst hn
        simp
        omega
      · rw [if_neg hex]
        have := ih (e + 1) (by omega)
        exact ⟨ErrBound_seqTrace _ _ _ _ this.1, ErrExact_seqTrace _ _ _ _ this.2⟩
    cases ev with
    | byte b =>
      simp only [writeWaitFor]
      by_cases hb : b = x
      · rw [if_pos hb]
        constructor
        · exact ⟨by simp; omega, fun a _ => by simpa using he⟩
        · intro n hn
          simp at hn
      · rw [if_neg hb]
        exact hchk
    | timeout =>
      simp only [writeWaitFor]
      exact hchk

theorem ystart_send_inv (maxE : Nat) :
    ∀ (input : List Ev) (e c : Nat), e < maxE →
      ErrBound maxE (start_send maxE e c input) ∧
      ErrExact maxE (start_send maxE e c input) := by
  intro input
  induction input with
  | nil =>
    intro e c he
    constructor
    · exact ⟨by simp [start_send]; omega, by simp [start_send]⟩
    · intro n hn
      simp [start_send] at hn
  | cons ev rest ih =>
    intro e c he
    have hchk : ∀ c', ErrBound maxE (startChk maxE (e + 1) c' rest
        (start_send maxE (e + 1) c' rest)) ∧
        ErrExact maxE (startChk maxE (e + 1) c' rest
        (start_send maxE (e + 1) c' rest)) := by
      intro c'
      unfold startChk
      by_cases hcan : 2 ≤ c'
      · rw [if_pos hcan]
        exact ⟨⟨by simp; omega, by simp⟩, by intro n hn; simp at hn⟩
      · rw [if_neg hcan]
        by_cases hex : maxE ≤ e + 1
        · rw [if_pos hex]
          refine ⟨⟨by simp; omega, by simp⟩, ?_⟩
          intro n hn
          simp at hn
          subst hn
          simp
          omega
        · rw [if_neg hex]
          exact ih (e + 1) c' (by omega)
    cases ev with
    | byte b =>
      simp only [start_send]
      by_cases h1 : b = CRC
      · rw [if_pos h1]
        constructor
        · exact ⟨by simp; omega, fun a _ => by simpa using he⟩
        · intro n hn
          simp at hn
      · rw [if_neg h1]
        exact hchk _
    | timeout =>
      simp only [start_send]
      exact hchk c

theorem ysendStreamGo_inv (pad maxE pts lastSz : Nat) :
    ∀ (gas : Nat) (s : List Nat) (input : List Ev) (bn e : Nat), e < maxE →
      ErrBound maxE (sendStreamGo pad maxE pts lastSz gas bn e s input) ∧
      ErrExact maxE (sendStreamGo pad maxE pts lastSz gas bn e s input) := by
  intro gas
  induction gas with
  | zero =>
    intro s input bn e he
    by_cases hs : s = []
    · constructor
      · exact ⟨by simp [sendStreamGo, hs]; omega, by simp [sendStreamGo, hs]; omega⟩
      · intro n hn
        simp [sendStreamGo, hs] at hn
    · constructor
      · exact ⟨by simp [sendStreamGo, hs]; omega, by simp [sendStreamGo, hs]⟩
      · intro n hn
        simp [sendStreamGo, hs] at hn
  | succ gas ih =>
    intro s input bn e he
    by_cases hs : s = []
    · constructor
      · exact ⟨by simp [sendStreamGo, hs]; omega, by simp [sendStreamGo, hs]; omega⟩
      · intro n hn
        simp [sendStreamGo, hs] at hn
    · have hchk : ∀ w rest, ErrBound maxE (waitChk maxE (e + 1) w rest
          (sendStreamGo pad maxE pts lastSz gas (bn + 1) (e + 1) (s.drop 1026) rest)) ∧
          ErrExact maxE (waitChk maxE (e + 1) w rest
          (sendStreamGo pad maxE pts lastSz gas (bn + 1) (e + 1) (s.drop 1026) rest)) := by
        intro w rest
        unfold waitChk
        by_cases hex : maxE ≤ e + 1
        · rw [if_pos hex]
          refine ⟨⟨by simp; omega, by simp⟩, ?_⟩
          intro n hn
          simp at hn
          subst hn
          simp
          omega
        · rw [if_neg hex]
          have := ih (s.drop 1026) rest (bn + 1) (e + 1) (by omega)
          exact ⟨ErrBound_seqTrace _ _ _ _ this.1, ErrExact_seqTrace _ _ _ _ this.2⟩
      cases input with
      | nil =>
        simp only [sendStreamGo, if_neg hs]
        constructor
        · exact ⟨by simp; omega, by simp⟩
        · intro n hn
          simp at hn
      | cons ev rest =>
        cases ev with
        | byte b =>
          simp only [sendStreamGo, if_neg hs]
          by_cases hb : b = ACK
          · rw [if_pos hb]
            have := ih (s.drop 1026) rest (bn + 1) e he
            exact ⟨ErrBound_seqTrace _ _ _ _ this.1, ErrExact_seqTrace _ _ _ _ this.2⟩
          · rw [if_neg hb]
            exact hchk _ _
        | timeout =>
          simp only [sendStreamGo, if_neg hs]
          exact hchk _ _

/-- The full YMODEM sender keeps the error counter within the budget. -/
theorem ysend_inv (maxE pad : Nat) (fn : List Nat) (fsz : Nat)
    (stream : List Nat) (input : List Ev) (hm : 0 < maxE) :
    ErrBound maxE (send maxE pad fn fsz stream input) ∧
    ErrExact maxE (send maxE pad fn fsz stream input) := by
  unfold send
  refine andThen_inv maxE _ _ (ystart_send_inv maxE input 0 0 hm) ?_
  intro _ e1 i1 he1
  refine andThen_inv maxE _ _ ?_ ?_
  · unfold send_start_frame
    refine ⟨ErrBound_seqTrace _ _ _ _ ?_, ErrExact_seqTrace _ _ _ _ ?_⟩ <;>
      [skip; skip] <;> first
      | exact (andThen_inv maxE _ _ (writeWaitFor_inv [] ACK maxE i1 e1 he1)
          (fun _ e2 i2 he2 => writeWaitFor_inv [] CRC maxE i2 e2 he2)).1
      | exact (andThen_inv maxE _ _ (writeWaitFor_inv [] ACK maxE i1 e1 he1)
          (fun _ e2 i2 he2 => writeWaitFor_inv [] CRC maxE i2 e2 he2)).2
  · intro _ e2 i2 he2
    refine andThen_inv maxE _ _ (ysendStreamGo_inv pad maxE
      (packets_to_send fsz) (fsz % 1024) stream.length stream i2 0 e2 he2) ?_
    intro _ e3 i3 he3
    unfold finish_send
    refine andThen_inv maxE _ _ (writeWaitFor_inv [EOT] NAK maxE i3 e3 he3) ?_
    intro _ e4 i4 he4
    refine andThen_inv maxE _ _ (writeWaitFor_inv [EOT] ACK maxE i4 e4 he4) ?_
    intro _ e5 i5 he5
    refine andThen_inv maxE _ _ (writeWaitFor_inv [] CRC maxE i5 e5 he5) ?_
    intro _ e6 i6 he6
    unfold send_end_frame
    have := writeWaitFor_inv [] ACK maxE i6 e6 he6
    exact ⟨ErrBound_seqTrace _ _ _ _ this.1, ErrExact_seqTrace _ _ _ _ this.2⟩

/-- A field loop that returns normally holds at most 32 bytes: every push
required the vector to be below its capacity. -/
theorem readField_ok_len :
    ∀ (input : List Ev) (acc acc' : List Nat) (rest : List Ev),
      readField acc input = .ok (acc', rest) → acc'.length ≤ 32 := by
  intro input
  induction input with
  | nil =>
    intro acc acc' rest h
    simp [readField] at h
  | cons ev tail ih =>
    intro acc acc' rest h
    cases ev with
    | timeout => simp [readField] at h
    | byte b =>
      simp only [readField] at h
      by_cases hcap : 32 ≤ acc.length
      · rw [if_pos hcap] at h
        simp at h
      · rw [if_neg hcap] at h
        by_cases hb : b = 0
        · rw [if_pos hb] at h
          simp at h
          obtain ⟨h1, _⟩ := h
          subst h1
          simp
          omega
        · rw [if_neg hb] at h
          exact ih _ _ _ h

/-- A padding loop asked for more bytes than fit in the capacity 32 vector
never returns normally. -/
theorem readPadding_not_ok :
    ∀ (count : Nat) (acc : List Nat) (input : List Ev)
      (v : List Nat × List Ev), 32 < acc.length + count → 1 ≤ count →
      readPadding count acc input ≠ .ok v := by
  intro count
  induction count with
  | zero =>
    intro _ _ _ h1 h2
    omega
  | succ k ih =>
    intro acc input v hsum _
    cases input with
    | nil => simp [readPadding, readByte]
    | cons ev tail =>
      cases ev with
      | timeout => simp [readPadding, readByte]
      | byte b =>
        simp only [readPadding, readByte]
        by_cases hcap : 32 ≤ acc.length
        · rw [if_pos hcap]
          simp
        · rw [if_neg hcap]
          by_cases hk : k = 0
          · subst hk
            exfalso
            omega
          · exact ih (acc ++ [b]) tail v (by simp; omega) (by omega)

/-- The header loop of YModem::recv never returns normally and never touches
the main error counter: any run reaching the padding loop must push more
than 32 bytes into the capacity 32 padding vector, so it panics (or fails on
the channel first). -/
theorem headerGo_no_ok (maxE : Nat) (gas pn e : Nat) (nb sb pb : List Nat)
    (input : List Ev) :
    (headerGo maxE gas pn e nb sb pb input).errors = e ∧
    ∀ v, (headerGo maxE gas pn e nb sb pb input).result ≠ .ok v := by
  cases gas with
  | zero => exact ⟨rfl, by simp [headerGo]⟩
  | succ gas =>
    simp only [headerGo]
    cases h1 : readByte input with
    | none => exact ⟨by simp [h1], by simp [h1]⟩
    | some p1 =>
      obtain ⟨pnum, i1⟩ := p1
      simp only [h1]
      cases h2 : readByte i1 with
      | none => exact ⟨by simp [h2], by simp [h2]⟩
      | some p2 =>
        obtain ⟨pnum1c, i2⟩ := p2
        simp only [h2]
        cases h3 : readField nb i2 with
        | err m => exact ⟨by simp [h3], by simp [h3]⟩
        | panic => exact ⟨by simp [h3], by simp [h3]⟩
        | stuck => exact ⟨by simp [h3], by simp [h3]⟩
        | ok p3 =>
          obtain ⟨nb', i3⟩ := p3
          simp only [h3]
          by_cases hu : validUtf8 nb'
          · rw [if_neg (by simp [hu])]
            cases h4 : readField sb i3 with
            | err m => exact ⟨by simp [h4], by simp [h4]⟩
            | panic => exact ⟨by simp [h4], by simp [h4]⟩
            | stuck => exact ⟨by simp [h4], by simp [h4]⟩
            | ok p4 =>
              obtain ⟨sb', i4⟩ := p4
              simp only [h4]
              have hn := readField_ok_len _ _ _ _ h3
              have hsz := readField_ok_len _ _ _ _ h4
              cases h5 : readPadding (128 - nb'.length - sb'.length) pb i4 with
              | ok p5 =>
                exact absurd h5
                  (readPadding_not_ok _ _ _ _ (by omega) (by omega))
              | err m => exact ⟨by simp [h5], by simp [h5]⟩
              | panic => exact ⟨by simp [h5], by simp [h5]⟩
              | stuck => exact ⟨by simp [h5], by simp [h5]⟩
          · rw [if_pos (by simp [hu])]
            exact ⟨by simp, by simp⟩

/-- YModem::recv never returns normally: the header phase always panics or
fails on the channel, so the main error counter is still zero at the end. -/
theorem yrecv_no_ok (maxE maxInit : Nat) (flag : Bool) (input : List Ev) :
    (recv maxE maxInit flag input).errors = 0 ∧
    ∀ v, (recv maxE maxInit flag input).result ≠ .ok v := by
  unfold recv
  cases hh : (handshake maxInit 0 0 input).result with
  | ok a =>
    have hhd := headerGo_no_ok maxE
      ((handshake maxInit 0 0 input).input.length + 1) 0 0 [] [] []
      (handshake maxInit 0 0 input).input
    cases hr : (header maxE 0 0 (handshake maxInit 0 0 input).input).result with
    | ok v => exact absurd hr (hhd.2 v)
    | err m =>
      have he0 : (header maxE 0 0 (handshake maxInit 0 0 input).input).errors = 0 :=
        hhd.1
      simp only [hh, hr, he0]
      exact ⟨by simp, by simp⟩
    | panic =>
      have he0 : (header maxE 0 0 (handshake maxInit 0 0 input).input).errors = 0 :=
        hhd.1
      simp only [hh, hr, he0]
      exact ⟨by simp, by simp⟩
    | stuck =>
      have he0 : (header maxE 0 0 (handshake maxInit 0 0 input).input).errors = 0 :=
        hhd.1
      simp only [hh, hr, he0]
      exact ⟨by simp, by simp⟩
  | err m =>
    simp only [hh]
    exact ⟨by simp, by simp⟩
  | panic =>
    simp only [hh]
    exact ⟨by simp, by simp⟩
  | stuck =>
    simp only [hh]
    exact ⟨by simp, by simp⟩

/-- The YMODEM receiver trivially keeps the error counter within any
budget, because no run ever reaches the paths that count errors. -/
theorem yrecv_inv (maxE maxInit : Nat) (flag : Bool) (input : List Ev) :
    ErrBound maxE (recv maxE maxInit flag input) := by
  obtain ⟨h0, hno⟩ := yrecv_no_ok maxE maxInit flag input
  exact ⟨by omega, fun v hv => absurd hv (hno v)⟩

end Txmodems.Ymodem

namespace Txmodems

/-- Claim C2 counterexample: in scenario S1 the engine does not emit the
frame with checksum byte 0xE8 that the claim states; the emitted byte
string differs from the claimed one. -/
theorem xmodem_scenario_s1_cex :
    (Xmodem.send 16 26 .Standard [97, 98, 99]
        [Ev.byte NAK, Ev.byte ACK, Ev.byte ACK]).wire ≠
      [1, 1, 254, 97, 98, 99] ++ List.replicate 125 26 ++ [0xE8, 4] := by
  decide

/-- Claim C2 (amended): for an XMODEM send of abc with block length 128,
pad byte 0x1A and a Standard checksum negotiated by a peer NAK, the engine
emits exactly SOH 0x01 0xFE, abc, 125 pad bytes, the checksum byte
(0x61 + 0x62 + 0x63 + 0x1A * 125) mod 256 = 0xD8 (not 0xE8), then after the
ACK the EOT byte, and send returns success with the error counter 0. -/
theorem xmodem_scenario_s1 :
    (Xmodem.send 16 26 .Standard [97, 98, 99]
        [Ev.byte NAK, Ev.byte ACK, Ev.byte ACK]).wire =
      [1, 1, 254, 97, 98, 99] ++ List.replicate 125 26 ++ [0xD8, 4] ∧
    (0x61 + 0x62 + 0x63 + 0x1A * 125) % 256 = 0xD8 ∧
    (Xmodem.send 16 26 .Standard [97, 98, 99]
        [Ev.byte NAK, Ev.byte ACK, Ev.byte ACK]).result = .ok () ∧
    (Xmodem.send 16 26 .Standard [97, 98, 99]
        [Ev.byte NAK, Ev.byte ACK, Ev.byte ACK]).errors = 0 := by
  refine ⟨by decide, by decide, by decide, by decide⟩

/-- Claim C3 counterexample: the receiver of variants/api/xmodem.rs, given
the single byte 0x05 (which is none of SOH, STX, EOT), answers ACK and
returns success, rather than ignoring the byte. -/
theorem xmodem_recv_api_unknown_byte_cex :
    (Xmodem.recvApi .Standard 16 1 [Ev.byte 5]).wire = [NAK, ACK] ∧
    (Xmodem.recvApi .Standard 16 1 [Ev.byte 5]).result = .ok () := by
  refine ⟨by decide, by decide⟩

/-- Claim C3 (amended): in the packet loop of the xmodem.rs receiver a byte
that is none of SOH, STX, EOT is ignored with no response, no error count,
and the loop continues, and EOT alone is answered with ACK and success;
in the variants/api receiver the arm written Some(_EOT) is a binding
pattern, so every byte other than SOH and STX, not only EOT, is answered
with ACK and ends the receive successfully. -/
theorem xmodem_recv_unknown_byte (mode : Checksum) (maxE fuel pn e b : Nat)
    (rest : List Ev) (h1 : b ≠ SOH) (h2 : b ≠ STX) (h3 : b ≠ EOT)
    (he : e < maxE) :
    Xmodem.recvLoop mode maxE (fuel + 1) pn e (Ev.byte b :: rest) =
      Xmodem.recvLoop mode maxE fuel pn e rest ∧
    Xmodem.recvLoop mode maxE (fuel + 1) pn e (Ev.byte EOT :: rest) =
      ⟨[ACK], [], rest, e, .ok ()⟩ ∧
    Xmodem.recvLoopApi mode maxE (fuel + 1) pn e (Ev.byte b :: rest) =
      ⟨[ACK], [], rest, e, .ok ()⟩ := by
  refine ⟨?_, ?_, ?_⟩
  · simp only [Xmodem.recvLoop]
    rw [if_neg (by simp [h1, h2]), if_neg h3]
    unfold Xmodem.recvChk
    rw [if_neg (by omega)]
    simp [seqTrace]
  · simp only [Xmodem.recvLoop]
    norm_num [SOH, STX, EOT]
  · simp only [Xmodem.recvLoopApi]
    rw [if_neg (by simp [h1, h2])]

/-- Claim C3 witness: the amended statement at the byte 0x55 with default
configuration. -/
theorem xmodem_recv_unknown_byte_witness :
    Xmodem.recvLoop .Standard 16 3 1 0 [Ev.byte 0x55] =
      Xmodem.recvLoop .Standard 16 2 1 0 [] ∧
    Xmodem.recvLoop .Standard 16 3 1 0 [Ev.byte EOT] =
      ⟨[ACK], [], [], 0, .ok ()⟩ ∧
    Xmodem.recvLoopApi .Standard 16 3 1 0 [Ev.byte 0x55] =
      ⟨[ACK], [], [], 0, .ok ()⟩ :=
  xmodem_recv_unknown_byte .Standard 16 2 1 0 0x55 []
    (by decide) (by decide) (by decide) (by decide)

/-- Claim C4: the expression file_size + 1023 / 1024 computed by
YModem::send for packets_to_send equals file_size (mod 2 to the 32 through
the as u32 cast), and the identical expression for num_of_packets in
YModem::recv equals file_size_num; neither is the ceiling division
(file_size + 1023) / 1024, from which it differs already at 2. -/
theorem ymodem_packet_count_precedence :
    (∀ fs, Ymodem.num_of_packets fs = fs) ∧
    (∀ fs, Ymodem.packets_to_send fs = fs % 2 ^ 32) ∧
    Ymodem.num_of_packets 2 ≠ (2 + 1023) / 1024 ∧
    Ymodem.packets_to_send 2 ≠ (2 + 1023) / 1024 := by
  refine ⟨fun fs => by simp [Ymodem.num_of_packets],
    fun fs => by simp [Ymodem.packets_to_send], by decide, by decide⟩

/-- Claim C5 counterexample: the header payload for filename a.bin and size
5 does not begin with the eight bytes the claim states; the byte after the
hexadecimal size digit is 0x20, not 0x00. -/
theorem ymodem_start_frame_cex :
    (Ymodem.send_start_frame_payload [97, 46, 98, 105, 110] 5).take 8 ≠
      [97, 46, 98, 105, 110, 0x00, 53, 0x00] ∧
    (Ymodem.send_start_frame_payload [97, 46, 98, 105, 110] 5).take 8 =
      [97, 46, 98, 105, 110, 0x00, 53, 0x20] := by
  refine ⟨by decide, by decide⟩

/-- Claim C5 (amended): for filename a.bin and file size 5 the header frame
is SOH, 0x00, 0xFF followed by the 128 byte payload consisting of the
filename, one NUL, the ASCII size 5 in lowercase hexadecimal, 23 space
bytes 0x20 (the rest of the 24 byte, space prefilled size buffer), and 98
NUL bytes, then the CRC-16 computed over exactly those 128 payload bytes,
transmitted high byte first. -/
theorem ymodem_start_frame_bytes :
    Ymodem.send_start_frame_wire [97, 46, 98, 105, 110] 5 =
      [SOH, 0x00, 0xFF] ++
        ([97, 46, 98, 105, 110, 0, 53] ++ List.replicate 23 0x20 ++
          List.replicate 98 0) ++
        [(calc_crc ([97, 46, 98, 105, 110, 0, 53] ++ List.replicate 23 0x20 ++
            List.replicate 98 0) >>> 8) % 256,
          calc_crc ([97, 46, 98, 105, 110, 0, 53] ++ List.replicate 23 0x20 ++
            List.replicate 98 0) % 256] ∧
    ([97, 46, 98, 105, 110, 0, 53] ++ List.replicate 23 0x20 ++
      List.replicate 98 0).length = 128 := by
  have hpl : Ymodem.send_start_frame_payload [97, 46, 98, 105, 110] 5 =
      [97, 46, 98, 105, 110, 0, 53] ++ List.replicate 23 0x20 ++
        List.replicate 98 0 := by
    decide
  constructor
  · unfold Ymodem.send_start_frame_wire
    rw [hpl]
    simp only [trailerFor]
  · decide

/-- Claim C6 counterexample: with max_errors configured to 0, one timeout in
the negotiation drives the error counter to 1, which exceeds the configured
maximum, before the sender returns ExhaustedRetries. -/
theorem error_counter_zero_max_cex :
    (Xmodem.send 0 26 .Standard [] [Ev.timeout]).errors = 1 ∧
    (Xmodem.send 0 26 .Standard [] [Ev.timeout]).result =
      .err (.ExhaustedRetries 1) ∧
    0 < (Xmodem.send 0 26 .Standard [] [Ev.timeout]).errors := by
  refine ⟨by decide, by decide, by decide⟩

/-- Claim C6 (amended): provided max_errors is at least 1, every embedded
engine operation ends with the running error counter at most max_errors and
returns successfully only with the counter strictly below it; in the XMODEM
operations and the YMODEM sender an ExhaustedRetries return carries exactly
max_errors with the counter stopped there. The YMODEM receiver can also
report ExhaustedRetries from its initial handshake, where the separate
initial-error counter is checked and the carried value is the main counter,
still 0. -/
theorem error_counter_invariant (maxE maxInit pad fuel fsz : Nat)
    (bl : BlockLength) (mode : Checksum) (flag : Bool)
    (stream fn : List Nat) (input : List Ev) (hm : 0 < maxE) :
    (ErrBound maxE (Xmodem.send maxE pad bl stream input) ∧
      ErrExact maxE (Xmodem.send maxE pad bl stream input)) ∧
    (ErrBound maxE (Xmodem.recv mode maxE fuel input) ∧
      ErrExact maxE (Xmodem.recv mode maxE fuel input)) ∧
    (ErrBound maxE (Xmodem.recvApi mode maxE fuel input) ∧
      ErrExact maxE (Xmodem.recvApi mode maxE fuel input)) ∧
    (ErrBound maxE (Ymodem.send maxE pad fn fsz stream input) ∧
      ErrExact maxE (Ymodem.send maxE pad fn fsz stream input)) ∧
    ErrBound maxE (Ymodem.recv maxE maxInit flag input) :=
  ⟨Xmodem.send_inv maxE pad bl stream input hm,
    Xmodem.recv_inv mode maxE fuel input hm,
    Xmodem.recvApi_inv mode maxE fuel input hm,
    Ymodem.ysend_inv maxE pad fn fsz stream input hm,
    Ymodem.yrecv_inv maxE maxInit flag input⟩

/-- Claim C6 witness: the amended invariant at a concrete configuration. -/
theorem error_counter_invariant_witness :
    (ErrBound 16 (Xmodem.send 16 26 .Standard [97] [Ev.timeout]) ∧
      ErrExact 16 (Xmodem.send 16 26 .Standard [97] [Ev.timeout])) ∧
    (ErrBound 16 (Xmodem.recv .Standard 16 2 [Ev.timeout]) ∧
      ErrExact 16 (Xmodem.recv .Standard 16 2 [Ev.timeout])) ∧
    (ErrBound 16 (Xmodem.recvApi .Standard 16 2 [Ev.timeout]) ∧
      ErrExact 16 (Xmodem.recvApi .Standard 16 2 [Ev.timeout])) ∧
    (ErrBound 16 (Ymodem.send 16 26 [98] 5 [97] [Ev.timeout]) ∧
      ErrExact 16 (Ymodem.send 16 26 [98] 5 [97] [Ev.timeout])) ∧
    ErrBound 16 (Ymodem.recv 16 16 false [Ev.timeout]) :=
  error_counter_invariant 16 16 26 2 5 .Standard .Standard false [97] [98]
    [Ev.timeout] (by decide)

/-- Claim C7: YModem::recv cannot complete and deliver anything: already on
a well-formed header frame (packet number pair 0x00 0xFF, filename a, size
5) it panics in the header phase, delivering no bytes, so no run exists in
which the delivered octet count could equal the parsed file size. -/
theorem ymodem_recv_never_delivers :
    (Ymodem.recv 16 16 false (Ev.byte 1 :: Ev.byte 0 :: Ev.byte 255 ::
        ([97, 0, 53, 0].map Ev.byte ++
          List.replicate 40 (Ev.byte 65)))).result = .panic ∧
    (Ymodem.recv 16 16 false (Ev.byte 1 :: Ev.byte 0 :: Ev.byte 255 ::
        ([97, 0, 53, 0].map Ev.byte ++
          List.replicate 40 (Ev.byte 65)))).out = [] := by
  refine ⟨by decide, by decide⟩

/-- Two CAN bytes at the start of the negotiation cancel the transfer when
at least two errors remain in the budget. -/
theorem start_send_two_cans (maxE : Nat) (hm : 2 ≤ maxE) (rest : List Ev) :
    Xmodem.start_send maxE 0 0 (Ev.byte CAN :: Ev.byte CAN :: rest) =
      ⟨[], [], rest, 2, .err .Canceled⟩ := by
  simp only [Xmodem.start_send]
  rw [if_neg (by norm_num [CAN, NAK]), if_neg (by norm_num [CAN, CRC])]
  norm_num
  unfold Xmodem.startSendChk
  rw [if_neg (by omega : ¬ (2 : Nat) ≤ 1), if_neg (by omega : ¬ maxE ≤ 1)]
  norm_num [CAN, NAK, CRC]

/-- Claim C8 counterexample: two consecutive CAN bytes arriving during
block streaming and the EOT exchange (after a NAK negotiation, with
max_errors 2) do not cancel: the transfer ends with ExhaustedRetries 2. -/
theorem xmodem_send_can_stream_cex :
    (Xmodem.send 2 26 .Standard [97]
        [Ev.byte NAK, Ev.byte CAN, Ev.byte CAN]).result =
      .err (.ExhaustedRetries 2) ∧
    (Xmodem.send 2 26 .Standard [97]
        [Ev.byte NAK, Ev.byte CAN, Ev.byte CAN]).result ≠
      .err .Canceled := by
  refine ⟨by decide, by decide⟩

/-- Claim C8 (amended): two consecutive CAN bytes cancel the transfer with
Canceled only during the negotiation phase (start_send), provided at least
two errors remain in the budget; during block streaming and the EOT
exchange CAN bytes are handled as ordinary unexpected bytes that count
toward max_errors (a TODO in the source), as the counterexample shows. -/
theorem xmodem_send_cancel_negotiation (maxE pad : Nat) (bl : BlockLength)
    (stream : List Nat) (rest : List Ev) (hm : 2 ≤ maxE) :
    (Xmodem.send maxE pad bl stream
        (Ev.byte CAN :: Ev.byte CAN :: rest)).result = .err .Canceled := by
  unfold Xmodem.send
  rw [start_send_two_cans maxE hm rest]
  simp [Trace.andThen]

/-- Claim C8 witness: the amended cancellation statement at a concrete
input. -/
theorem xmodem_send_cancel_negotiation_witness :
    (Xmodem.send 2 26 .OneK [1, 2]
        [Ev.byte CAN, Ev.byte CAN]).result = .err .Canceled :=
  xmodem_send_cancel_negotiation 2 26 .OneK [1, 2] [] (by decide)

/-- Claim C9: in the YModem::recv handshake, timeouts do not increment the
initial-error counter: three consecutive timeouts with max_initial_errors 2
leave the counter at 0 and the handshake still succeeds on the following
SOH, because get_byte_timeout turns a timeout into Ok(None), which falls
into the non-incrementing Ok branch of the loop. -/
theorem ymodem_handshake_timeout_uncounted :
    Ymodem.handshake 2 0 0 [Ev.timeout, Ev.timeout, Ev.timeout, Ev.byte SOH] =
      ⟨[CRC, CRC, CRC, CRC], [], [], 0, .ok ()⟩ := by
  decide

theorem handshake_soh (maxInit errs ie : Nat) (r : List Ev) :
    Ymodem.handshake maxInit errs ie (Ev.byte SOH :: r) =
      ⟨[CRC], [], r, ie, .ok ()⟩ := by
  show Ymodem.handshakeGo maxInit errs ((Ev.byte SOH :: r).length + maxInit + 2)
    ie (Ev.byte SOH :: r) = _
  have h : (Ev.byte SOH :: r).length + maxInit + 2 =
      (r.length + maxInit + 2) + 1 := by
    simp
    omega
  rw [h]
  simp [Ymodem.handshakeGo]

/-- A field whose bytes are nonzero, fit the capacity and end with a NUL is
read in full. -/
theorem readField_term :
    ∀ (xs acc : List Nat) (k : List Ev), 0 ∉ xs →
      acc.length + xs.length ≤ 31 →
      Ymodem.readField acc (xs.map Ev.byte ++ Ev.byte 0 :: k) =
        .ok (acc ++ xs ++ [0], k) := by
  intro xs
  induction xs with
  | nil =>
    intro acc k _ hlen
    simp only [List.map_nil, List.nil_append, Ymodem.readField]
    rw [if_neg (by omega)]
    simp
  | cons x xs ih =>
    intro acc k hx hlen
    simp only [List.map_cons, List.cons_append, Ymodem.readField]
    rw [if_neg (by simp at hlen ⊢; omega)]
    rw [if_neg (by simp at hx; exact fun h => hx.1 h.symm)]
    simp only [List.append_eq]
    rw [ih (acc ++ [x]) k (by simp at hx ⊢; exact hx.2) (by simp at hlen ⊢; omega)]
    simp

/-- A padding loop asked for more bytes than fit, fed enough byte events,
always panics at the push that exceeds the capacity. -/
theorem readPadding_panic :
    ∀ (bs : List Nat) (count : Nat) (acc : List Nat) (k : List Ev),
      acc.length ≤ 32 → 32 < acc.length + count →
      32 - acc.length < bs.length →
      Ymodem.readPadding count acc (bs.map Ev.byte ++ k) = .panic := by
  intro bs
  induction bs with
  | nil =>
    intro count acc k _ _ h3
    simp at h3
  | cons b bs ih =>
    intro count acc k h1 h2 h3
    cases count with
    | zero =>
      exfalso
      omega
    | succ c =>
      simp only [List.map_cons, List.cons_append, Ymodem.readPadding, readByte]
      by_cases hcap : 32 ≤ acc.length
      · rw [if_pos hcap]
      · rw [if_neg hcap]
        refine ih c (acc ++ [b]) k (by simp; omega) (by simp; omega) ?_
        simp at h3 ⊢
        omega

/-- One header iteration on a well-formed frame with short fields always
panics: at the UTF-8 unwrap of the filename, or in the padding loop, which
must push more than 32 bytes. -/
theorem headerGo_panics (maxE gas pn e p q : Nat) (name sizeF pad33 : List Nat)
    (k : List Ev) (hn0 : 0 ∉ name) (hn : name.length ≤ 31)
    (hs0 : 0 ∉ sizeF) (hs : sizeF.length ≤ 31) (hp : 33 ≤ pad33.length) :
    (Ymodem.headerGo maxE (gas + 1) pn e [] [] []
        (Ev.byte p :: Ev.byte q :: (name.map Ev.byte ++ Ev.byte 0 ::
          (sizeF.map Ev.byte ++ Ev.byte 0 ::
            (pad33.map Ev.byte ++ k))))).result = .panic := by
  have hf1 := readField_term name []
    (sizeF.map Ev.byte ++ Ev.byte 0 :: (pad33.map Ev.byte ++ k)) hn0
    (by simpa using hn)
  simp only [List.nil_append] at hf1
  simp only [Ymodem.headerGo, readByte, hf1]
  by_cases hu : Ymodem.validUtf8 (name ++ [0])
  · rw [if_neg (by simp [hu])]
    have hf2 := readField_term sizeF [] (pad33.map Ev.byte ++ k) hs0
      (by simpa using hs)
    simp only [List.nil_append] at hf2
    simp only [hf2]
    have hpp := readPadding_panic pad33
      (128 - (name ++ [0]).length - (sizeF ++ [0]).length) [] k
      (by simp) (by simp; omega) (by simp; omega)
    simp only [hpp]
  · rw [if_pos (by simp [hu])]

/-- Claim C10: for every header frame whose filename field (through its
NUL) and size field (through its NUL) are well formed within the capacity
32 buffers, YModem::recv panics instead of returning a ModemError: the two
fields occupy at most 64 of the 128 payload bytes, fewer than 96, so the
padding loop must push more than 32 bytes into a capacity 32 heapless Vec
through push unwrap (or the filename UTF-8 unwrap panics first). -/
theorem ymodem_recv_header_padding_panic (maxE maxInit : Nat) (flag : Bool)
    (p q : Nat) (name sizeF pad33 : List Nat) (k : List Ev)
    (hn0 : 0 ∉ name) (hn : name.length ≤ 31)
    (hs0 : 0 ∉ sizeF) (hs : sizeF.length ≤ 31) (hp : 33 ≤ pad33.length) :
    (Ymodem.recv maxE maxInit flag (Ev.byte SOH :: Ev.byte p :: Ev.byte q ::
        (name.map Ev.byte ++ Ev.byte 0 :: (sizeF.map Ev.byte ++ Ev.byte 0 ::
          (pad33.map Ev.byte ++ k))))).result = .panic ∧
    (name.length + 1) + (sizeF.length + 1) < 96 := by
  constructor
  · have hr : (Ymodem.header maxE 0 0 (Ev.byte p :: Ev.byte q ::
        (name.map Ev.byte ++ Ev.byte 0 :: (sizeF.map Ev.byte ++ Ev.byte 0 ::
          (pad33.map Ev.byte ++ k))))).result = .panic := by
      unfold Ymodem.header
      exact headerGo_panics maxE _ 0 0 p q name sizeF pad33 k hn0 hn hs0 hs hp
    unfold Ymodem.recv
    rw [handshake_soh maxInit 0 0]
    simp [hr]
  · omega

/-- Claim C10 witness: the panic at a concrete header with filename byte
0x61 and size byte 0x35. -/
theorem ymodem_recv_header_padding_panic_witness :
    (Ymodem.recv 8 8 false (Ev.byte SOH :: Ev.byte 0 :: Ev.byte 255 ::
        ([97].map Ev.byte ++ Ev.byte 0 :: ([53].map Ev.byte ++ Ev.byte 0 ::
          ((List.replicate 33 65).map Ev.byte ++ []))))).result = .panic ∧
    (([97] : List Nat).length + 1) + (([53] : List Nat).length + 1) < 96 :=
  ymodem_recv_header_padding_panic 8 8 false 0 255 [97] [53]
    (List.replicate 33 65) [] (by decide) (by decide) (by decide) (by decide)
    (by decide)

/-- Claim C1 witness: the round trip at the payload abc in CRC-16 mode with
the default configuration. -/
theorem xmodem_round_trip_witness :
    ∃ sendT recvT : Trace Unit,
      sendT = Xmodem.send 16 26 .Standard [97, 98, 99] (recvT.wire.map Ev.byte) ∧
      recvT = Xmodem.recv .Crc16 16 (nBlocks .Standard [97, 98, 99] + 1)
        (sendT.wire.map Ev.byte) ∧
      sendT.result = .ok () ∧ recvT.result = .ok () ∧
      sendT.errors = 0 ∧ recvT.errors = 0 ∧
      [97, 98, 99] <+: recvT.out ∧
      recvT.out.length - ([97, 98, 99] : List Nat).length <
        BlockLength.Standard.size ∧
      recvT.out.drop ([97, 98, 99] : List Nat).length =
        List.replicate (recvT.out.length - ([97, 98, 99] : List Nat).length) 26 :=
  xmodem_round_trip [97, 98, 99] .Crc16 .Standard 26 16 (by decide) (by decide)

end Txmodems

